import Mathlib

/-!
Verification of the emulsify-core build-configuration toolkit.

This file gives a shallow embedding, in Lean 4, of the path-routing core of
the repository (the Vite entry-map builder, the environment resolver, the
plugin factory's prune/mirror and spritemap helpers, and the accessibility
lint entry point), and proves or refutes the frozen specification claims
about them.

Modelling conventions:
  * JavaScript strings are modelled as lists of characters (JStr).  All
    paths are POSIX paths (the sources normalise to POSIX via toPosix or a
    backslash replace before any manipulation, so toPosix is the identity in
    the model).
  * Filesystem contents reaching the code through globSync or readdirSync
    are inputs of the model (explicit list parameters).
  * Simple anchored regular expressions are embedded as the equivalent
    take/drop operations; each definition notes the regex it models.
-/

/-- Model of a JavaScript string: a list of characters. -/
abbrev JStr := List Char

/-- Conversion from a Lean string literal to the model. -/
def jstr (s : String) : JStr := s.data

/-- Characters kept by the key sanitizer of entries.js: the class
`[a-zA-Z0-9/_-]` used by sanitizePath. -/
def allowedChar (c : Char) : Bool :=
  (('a' ≤ c) && (c ≤ 'z')) || (('A' ≤ c) && (c ≤ 'Z')) ||
  (('0' ≤ c) && (c ≤ '9')) || (c == '/') || (c == '_') || (c == '-')

/-- Embedding of sanitizePath from entries.js (both variants, lines 46 and
315): `String(s).replace(/[^a-zA-Z0-9/_-]/g, '')` removes every character
outside the allowed class. -/
def sanitizePath (s : JStr) : JStr := s.filter allowedChar

/-- Index of the last occurrence of a character, modelling
`String.prototype.lastIndexOf` (which returns -1, modelled as none, when
the character is absent). -/
def lastIdxOf (c : Char) (s : JStr) : Option Nat :=
  match s.reverse.findIdx? (fun x => x == c) with
  | none => none
  | some j => some (s.length - 1 - j)

/-- Embedding of replaceLastSlash from entries.js (lines 55-59): replace the
last '/' of the string by the replacement, or return the string unchanged
when it contains no '/'. -/
def replaceLastSlash (s repl : JStr) : JStr :=
  match lastIdxOf '/' s with
  | none => s
  | some i => s.take i ++ repl ++ s.drop (i + 1)

/-- ASCII lower-casing of one character, modelling the effect of
`toLowerCase` on the ASCII range exercised by the build code. -/
def toLowerAscii (c : Char) : Char :=
  if ('A' ≤ c && c ≤ 'Z') then Char.ofNat (c.toNat + 32) else c

/-- Case-insensitive suffix test; the given suffix is in lower case.  Used
to embed the anchored case-insensitive extension regexes. -/
def ciEndsWith (s suffix : JStr) : Bool :=
  decide (suffix.length ≤ s.length) &&
    ((s.drop (s.length - suffix.length)).map toLowerAscii == suffix)

/-- Embedding of `replace(/\.(scss|js)$/i, '')`: strip one trailing ".scss"
or ".js" extension, case-insensitively. -/
def stripJsScssExt (s : JStr) : JStr :=
  if ciEndsWith s (jstr ".scss") then s.take (s.length - 5)
  else if ciEndsWith s (jstr ".js") then s.take (s.length - 3)
  else s

/-- Embedding of `replace(/\.scss$/i, '')`. -/
def stripScssExt (s : JStr) : JStr :=
  if ciEndsWith s (jstr ".scss") then s.take (s.length - 5) else s

/-- Asset category passed to computeOutputStem: "js" or "css". -/
inductive AssetType where
  | js
  | css
deriving DecidableEq

/-- Folder name injected for each asset type in non-SDC mode. -/
def bucketName : AssetType → JStr
  | AssetType.js => jstr "js"
  | AssetType.css => jstr "css"

/-- Embedding of computeOutputStem from entries.js (lines 141-153), which is
also insertBucket of the second variant (lines 418-426): drop the original
extension; in SDC mode add the temporary "__style" suffix to css keys; in
non-SDC mode inject a "/css/" or "/js/" folder before the filename. -/
def computeOutputStem (rel : JStr) (type : AssetType) (sdc : Bool) : JStr :=
  let withoutExt := stripJsScssExt rel
  if sdc then
    match type with
    | AssetType.css => withoutExt ++ jstr "__style"
    | AssetType.js => withoutExt
  else
    stripJsScssExt (replaceLastSlash rel (jstr "/" ++ bucketName type ++ jstr "/"))

/-- Key cleaning performed by the add closures of buildInputs (entries.js
lines 187-191 and 402-407): strip the leading run of slashes (the regex
`^\/+`) and sanitize. -/
def cleanKey (k : JStr) : JStr := sanitizePath (k.dropWhile (fun c => c == '/'))

/-- Embedding of the add closures of buildInputs (entries.js lines 187-191,
and the hasOwnProperty-guarded variant at lines 402-407): insert the cleaned
key only when it is non-empty and not already present; an existing binding
is never overwritten.  The Map (respectively, plain object) is modelled as
an association list in insertion order. -/
def addEntry (m : List (JStr × JStr)) (key abs : JStr) : List (JStr × JStr) :=
  let clean := cleanKey key
  if clean.isEmpty || m.any (fun p => p.1 == clean) then m
  else m ++ [(clean, abs)]

/-- Sequential insertion of a batch of (raw key, absolute path) pairs via
addEntry, in order: the loops of buildInputs. -/
def addAll (m : List (JStr × JStr)) (l : List (JStr × JStr)) : List (JStr × JStr) :=
  l.foldl (fun acc kv => addEntry acc kv.1 kv.2) m

/-- Lookup of a key in the modelled input map. -/
def lookupKey (m : List (JStr × JStr)) (k : JStr) : Option JStr :=
  (m.find? (fun p => p.1 == k)).map (fun p => p.2)

/-- Environment record consumed by makePatterns and buildInputs
(entries.js BuildContext typedef): project root, canonical source
directory (POSIX), whether a src/ directory exists, and the
Single Directory Components flag. -/
structure BuildContext where
  projectDir : JStr
  srcDir : JStr
  srcExists : Bool
  SDC : Bool

/-- The six glob patterns produced by makePatterns (entries.js Patterns
typedef). -/
structure Patterns where
  BaseScssPattern : JStr
  ComponentScssPattern : JStr
  ComponentLibraryScssPattern : JStr
  BaseJsPattern : JStr
  ComponentJsPattern : JStr
  SpritePattern : JStr

/-- Model of `path.resolve(base, rel)` for an absolute normalized base and a
relative segment without dot segments (the only way the sources call it). -/
def resolvePath (base rel : JStr) : JStr := base ++ jstr "/" ++ rel

/-- Embedding of makePatterns from entries.js (lines 92-126): base/global
patterns are the empty string when no src/ directory exists; component
patterns then fall back to the source directory root; the component-library
and sprite patterns are unconditional. -/
def makePatterns (ctx : BuildContext) : Patterns :=
  { BaseScssPattern :=
      if ctx.srcExists then resolvePath ctx.srcDir (jstr "!(components|util)/**/!(_*|cl-*|sb-*).scss")
      else []
    ComponentScssPattern :=
      if ctx.srcExists then resolvePath ctx.srcDir (jstr "components/**/!(_*|cl-*|sb-*).scss")
      else resolvePath ctx.srcDir (jstr "**/!(_*|cl-*|sb-*).scss")
    ComponentLibraryScssPattern :=
      resolvePath ctx.srcDir (jstr "**/*\x7bcl-*,sb-*\x7d.scss")
    BaseJsPattern :=
      if ctx.srcExists then resolvePath ctx.srcDir (jstr "!(components|util)/**/!(*.stories|*.component|*.min|*.test).js")
      else []
    ComponentJsPattern :=
      if ctx.srcExists then resolvePath ctx.srcDir (jstr "components/**/!(*.stories|*.component|*.min|*.test).js")
      else resolvePath ctx.srcDir (jstr "**/!(*.stories|*.component|*.min|*.test).js")
    SpritePattern :=
      resolvePath ctx.projectDir (jstr "assets/icons/**/*.svg") }

/-- Filesystem input of buildInputs: the result lists of the five globSync
calls (absolute POSIX paths). -/
structure GlobResults where
  baseJs : List JStr
  componentJs : List JStr
  baseScss : List JStr
  componentScss : List JStr
  libraryScss : List JStr

/-- Embedding of the relativePathFromSrc closure of buildInputs (entries.js
lines 198-202): strip the "srcDir/" prefix when present, else return the
path unchanged. -/
def relativePathFromSrc (srcPosix abs : JStr) : JStr :=
  let needle := srcPosix ++ jstr "/"
  if needle.isPrefixOf abs then abs.drop needle.length else abs

/-- Index of the first occurrence of a substring, modelling
`String.prototype.indexOf` (none models -1). -/
def firstIdxOfSub (marker s : JStr) : Option Nat :=
  (List.range (s.length + 1)).find? (fun i => marker.isPrefixOf (s.drop i))

/-- The "/components/" marker searched for in component file paths. -/
def componentMarker : JStr := jstr "/components/"

/-- Embedding of the afterComponents computation of the component loops of
buildInputs (entries.js lines 216-220): the path after the first
"/components/" marker, or the path relative to srcDir when the marker is
absent. -/
def afterComponentsMarker (srcPosix abs : JStr) : JStr :=
  match firstIdxOfSub componentMarker abs with
  | some i => abs.drop (i + componentMarker.length)
  | none => relativePathFromSrc srcPosix abs

/-- Embedding of an anchored `replace(/^pre/, '')`: drop the prefix when the
string starts with it. -/
def dropPrefixIfMatch (pre s : JStr) : JStr :=
  if pre.isPrefixOf s then s.drop pre.length else s

/-- Raw key computed for one component file by buildInputs (entries.js
lines 223-228 and 249-254): build the stem from a "components/<rest>" shape,
drop the prefixed folder from the stem, and re-prefix "components/". -/
def componentStemKey (srcPosix : JStr) (sdc : Bool) (t : AssetType) (abs : JStr) : JStr :=
  jstr "components/" ++
    dropPrefixIfMatch (jstr "components/")
      (computeOutputStem (jstr "components/" ++ afterComponentsMarker srcPosix abs) t sdc)

/-- The ordered sequence of (raw key, absolute path) insertions performed by
buildInputs (entries.js lines 204-261): base/global js, component js,
base/global scss, component scss, then component-library (storybook) scss.
The base loops run only when their pattern string is truthy (non-empty). -/
def insertionSequence (ctx : BuildContext) (pats : Patterns) (g : GlobResults) :
    List (JStr × JStr) :=
  (if pats.BaseJsPattern.isEmpty then []
   else g.baseJs.map (fun abs =>
     (jstr "global/" ++ computeOutputStem (relativePathFromSrc ctx.srcDir abs) AssetType.js ctx.SDC, abs))) ++
  g.componentJs.map (fun abs => (componentStemKey ctx.srcDir ctx.SDC AssetType.js abs, abs)) ++
  (if pats.BaseScssPattern.isEmpty then []
   else g.baseScss.map (fun abs =>
     (jstr "global/" ++ computeOutputStem (relativePathFromSrc ctx.srcDir abs) AssetType.css ctx.SDC, abs))) ++
  g.componentScss.map (fun abs => (componentStemKey ctx.srcDir ctx.SDC AssetType.css abs, abs)) ++
  g.libraryScss.map (fun abs =>
    (jstr "storybook/" ++ stripScssExt (relativePathFromSrc ctx.srcDir abs), abs))

/-- Embedding of buildInputs from entries.js (lines 164-265): fold the
insertion sequence through the first-wins add closure, starting from the
empty map. -/
def buildInputs (ctx : BuildContext) (pats : Patterns) (g : GlobResults) :
    List (JStr × JStr) :=
  addAll [] (insertionSequence ctx pats g)

/-- Embedding of the rollup `entryFileNames: '[name].js'` template of
vite.config.js: an entry key becomes "<key>.js". -/
def entryFileName (name : JStr) : JStr := name ++ jstr ".js"

/-- Case-sensitive suffix test, modelling `String.prototype.endsWith`. -/
def plainEndsWith (s suffix : JStr) : Bool := suffix.isSuffixOf s

/-- Embedding of `file.replace(/__style(?=\.css(\.map)?$)/, '')` from the
assetFileNames callback of vite.config.js (line 133).  The lookahead anchors
any match to the end of the string, so the only possible match positions are
just before a terminal ".css" or ".css.map"; the replacement is therefore
exactly the removal of a trailing helper suffix. -/
def stripStyleHelper (file : JStr) : JStr :=
  if plainEndsWith file (jstr "__style.css") then
    file.take (file.length - (jstr "__style.css").length) ++ jstr ".css"
  else if plainEndsWith file (jstr "__style.css.map") then
    file.take (file.length - (jstr "__style.css.map").length) ++ jstr ".css.map"
  else file

/-- Embedding of the assetFileNames callback of vite.config.js (lines
127-138): css files and sourcemaps keep their keyed path with the "__style"
helper suffix stripped; every other asset goes to the assets bucket
template. -/
def assetFileNames (file : JStr) : JStr :=
  if plainEndsWith file (jstr ".css") || plainEndsWith file (jstr ".map") then
    stripStyleHelper file
  else jstr "assets/[name][extname]"

/-- Specification reading of first-writer-wins: the value bound to a key is
the source file of the first insertion whose computed (cleaned) key equals
it; insertions whose computed key is empty never bind anything. -/
def firstComputed (l : List (JStr × JStr)) (k : JStr) : Option JStr :=
  (l.find? (fun p => !(cleanKey p.1).isEmpty && (cleanKey p.1 == k))).map (fun p => p.2)

theorem cleanKey_allowed (k : JStr) : ∀ c ∈ cleanKey k, allowedChar c = true := by
  intro c hc
  exact List.of_mem_filter hc

theorem addEntry_cases (m : List (JStr × JStr)) (key abs : JStr) :
    addEntry m key abs = m ∨
      (addEntry m key abs = m ++ [(cleanKey key, abs)] ∧
        (cleanKey key).isEmpty = false ∧
        m.any (fun p => p.1 == cleanKey key) = false) := by
  unfold addEntry
  by_cases h : ((cleanKey key).isEmpty || m.any (fun p => p.1 == cleanKey key)) = true
  · simp [h]
  · simp only [Bool.or_eq_true] at h
    push_neg at h
    simp only [Bool.not_eq_true] at h
    right
    refine ⟨?_, h.1, h.2⟩
    simp [h.1, h.2]

theorem addAll_nodup (l : List (JStr × JStr)) :
    ∀ m, (m.map Prod.fst).Nodup → ((addAll m l).map Prod.fst).Nodup := by
  induction l with
  | nil => intro m hm; exact hm
  | cons kv t ih =>
    intro m hm
    show ((addAll (addEntry m kv.1 kv.2) t).map Prod.fst).Nodup
    apply ih
    rcases addEntry_cases m kv.1 kv.2 with h | ⟨h, _, hany⟩
    · rw [h]; exact hm
    · rw [h, List.map_append, List.nodup_append]
      refine ⟨hm, by simp, ?_⟩
      intro a ha hb
      simp only [List.map_cons, List.map_nil, List.mem_singleton] at hb
      subst hb
      rw [Bool.eq_false_iff] at hany
      apply hany
      rw [List.any_eq_true]
      rcases List.mem_map.mp ha with ⟨p, hp, hfst⟩
      exact ⟨p, hp, by simp [hfst]⟩

theorem addAll_keys_allowed (l : List (JStr × JStr)) :
    ∀ m, (∀ k ∈ m.map Prod.fst, ∀ c ∈ k, allowedChar c = true) →
      ∀ k ∈ (addAll m l).map Prod.fst, ∀ c ∈ k, allowedChar c = true := by
  induction l with
  | nil => intro m hm; exact hm
  | cons kv t ih =>
    intro m hm
    show ∀ k ∈ ((addAll (addEntry m kv.1 kv.2) t).map Prod.fst), _
    apply ih
    rcases addEntry_cases m kv.1 kv.2 with h | ⟨h, _, _⟩
    · rw [h]; exact hm
    · rw [h, List.map_append]
      intro k hk
      rcases List.mem_append.mp hk with hk | hk
      · exact hm k hk
      · simp only [List.map_cons, List.map_nil, List.mem_singleton] at hk
        subst hk
        exact cleanKey_allowed kv.1

theorem addAll_shape (l : List (JStr × JStr)) :
    ∀ m, ∃ rest, addAll m l = m ++ rest := by
  induction l with
  | nil => intro m; exact ⟨[], by simp [addAll]⟩
  | cons kv t ih =>
    intro m
    rcases ih (addEntry m kv.1 kv.2) with ⟨rest, hrest⟩
    have hstep : addAll m (kv :: t) = addAll (addEntry m kv.1 kv.2) t := rfl
    rcases addEntry_cases m kv.1 kv.2 with h | ⟨h, _, _⟩
    · exact ⟨rest, by rw [hstep, hrest, h]⟩
    · exact ⟨[(cleanKey kv.1, kv.2)] ++ rest, by rw [hstep, hrest, h, List.append_assoc]⟩

theorem lookupKey_append_some {m : List (JStr × JStr)} {k v : JStr}
    (rest : List (JStr × JStr)) (h : lookupKey m k = some v) :
    lookupKey (m ++ rest) k = some v := by
  unfold lookupKey at h ⊢
  rw [List.find?_append]
  rcases hfind : m.find? (fun p => p.1 == k) with _ | p
  · rw [hfind] at h; simp at h
  · rw [hfind] at h
    rw [hfind]
    rw [show (some p).or (List.find? (fun p => p.1 == k) rest) = some p from rfl]
    exact h

theorem lookupKey_addAll_some {m : List (JStr × JStr)} {k v : JStr}
    (l : List (JStr × JStr)) (h : lookupKey m k = some v) :
    lookupKey (addAll m l) k = some v := by
  rcases addAll_shape l m with ⟨rest, hrest⟩
  rw [hrest]
  exact lookupKey_append_some rest h

theorem lookupKey_addAll_eq (l : List (JStr × JStr)) :
    ∀ m k, lookupKey m k = none →
      lookupKey (addAll m l) k = firstComputed l k := by
  induction l with
  | nil => intro m k hm; exact hm
  | cons kv t ih =>
    intro m k hm
    have hnotmem : ∀ p ∈ m, (p.1 == k) = false := by
      intro p hp
      unfold lookupKey at hm
      rcases hfind : m.find? (fun q => q.1 == k) with _ | q
      · rw [List.find?_eq_none] at hfind
        simpa using hfind p hp
      · rw [hfind] at hm; simp at hm
    show lookupKey (addAll (addEntry m kv.1 kv.2) t) k = _
    rcases addEntry_cases m kv.1 kv.2 with h | ⟨h, hne, hany⟩
    · -- the insertion was dropped: empty key or duplicate of an existing key
      rw [h, ih m k hm]
      unfold firstComputed
      rw [List.find?_cons]
      have hhead : (!(cleanKey kv.1).isEmpty && (cleanKey kv.1 == k)) = false := by
        by_cases hemp : (cleanKey kv.1).isEmpty = true
        · simp [hemp]
        · simp only [Bool.not_eq_true] at hemp
          by_cases heq : cleanKey kv.1 = k
          · -- a duplicate: the key is already in m, contradicting lookup none
            exfalso
            by_cases hany2 : m.any (fun p => p.1 == cleanKey kv.1) = true
            · rcases List.any_eq_true.mp hany2 with ⟨p, hp, hpk⟩
              have h2 := hnotmem p hp
              rw [heq] at hpk
              rw [h2] at hpk
              exact Bool.false_ne_true hpk
            · simp only [Bool.not_eq_true] at hany2
              have hadd : addEntry m kv.1 kv.2 = m ++ [(cleanKey kv.1, kv.2)] := by
                unfold addEntry
                simp [hemp, hany2]
              rw [hadd] at h
              have hlen := congrArg List.length h
              simp at hlen
          · simp [heq]
      rw [hhead]
    · -- the insertion appended a fresh, non-empty key
      rw [h]
      unfold firstComputed
      rw [List.find?_cons]
      by_cases heq : cleanKey kv.1 = k
      · have hkne : List.isEmpty k = false := heq ▸ hne
        have hhead : (!(cleanKey kv.1).isEmpty && (cleanKey kv.1 == k)) = true := by
          simp [heq, hkne]
        rw [hhead]
        subst heq
        apply lookupKey_addAll_some
        unfold lookupKey
        rw [List.find?_append]
        have hm1 : m.find? (fun p => p.1 == cleanKey kv.1) = none := by
          rw [List.find?_eq_none]
          intro p hp
          have := hnotmem p hp
          simp_all
        rw [hm1]
        simp [Option.or, List.find?]
      · have hhead : (!(cleanKey kv.1).isEmpty && (cleanKey kv.1 == k)) = false := by
          simp [heq]
        rw [hhead]
        apply ih
        unfold lookupKey
        rw [List.find?_append]
        have hm1 : m.find? (fun p => p.1 == k) = none := by
          rw [List.find?_eq_none]
          intro p hp
          simpa using hnotmem p hp
        rw [hm1]
        have hbeq : (cleanKey kv.1 == k) = false := by simp [heq]
        have : List.find? (fun p => p.1 == k) [(cleanKey kv.1, kv.2)] = none := by
          simp [List.find?, hbeq]
        rw [this]
        rfl

/-- Example environment shared by the concrete witnesses: a project at
/proj with an existing src/ directory and SDC mode on. -/
def exCtx : BuildContext := ⟨jstr "/proj", jstr "/proj/src", true, true⟩

/-- Patterns of the example environment. -/
def exPats : Patterns := makePatterns exCtx

/-- Glob results of the example environment: one component script and one
component stylesheet with the same stem. -/
def exGlobs : GlobResults :=
  ⟨[], [jstr "/proj/src/components/accordion/accordion.js"],
   [], [jstr "/proj/src/components/accordion/accordion.scss"], []⟩

/-- C1: for every sequence of insertions performed by the entry-map builder,
the resulting input map binds each key to the source file of the first
insertion that computed that key; a later file whose computed key collides
is silently dropped, never overwritten or merged, and the map's keys are
unique after every insertion (uniqueness is preserved by every addAll
step starting from any duplicate-free state, hence holds for every
intermediate map of the build). -/
theorem buildInputs_first_writer_wins (ctx : BuildContext) (pats : Patterns) (g : GlobResults) :
    ((buildInputs ctx pats g).map Prod.fst).Nodup ∧
    (∀ m l, (m.map Prod.fst).Nodup → ((addAll m l).map Prod.fst).Nodup) ∧
    (∀ k, lookupKey (buildInputs ctx pats g) k =
      firstComputed (insertionSequence ctx pats g) k) := by
  refine ⟨addAll_nodup _ [] (by simp), fun m l hm => addAll_nodup l m hm, fun k => ?_⟩
  exact lookupKey_addAll_eq (insertionSequence ctx pats g) [] k rfl

/-- Witness for C1 at the accordion example. -/
theorem buildInputs_first_writer_wins_witness :
    ((buildInputs exCtx exPats exGlobs).map Prod.fst).Nodup ∧
    ((addAll (buildInputs exCtx exPats exGlobs)
        [(jstr "components/accordion/accordion", jstr "/later/accordion.js")]).map Prod.fst).Nodup ∧
    lookupKey (buildInputs exCtx exPats exGlobs) (jstr "components/accordion/accordion") =
      firstComputed (insertionSequence exCtx exPats exGlobs) (jstr "components/accordion/accordion") :=
  ⟨(buildInputs_first_writer_wins exCtx exPats exGlobs).1,
   (buildInputs_first_writer_wins exCtx exPats exGlobs).2.1 _ _ (by decide),
   (buildInputs_first_writer_wins exCtx exPats exGlobs).2.2 _⟩

/-- C4: every key in the input map returned by the entry-map builder
contains only characters from the class [A-Za-z0-9/_-]; anything else was
stripped by sanitizePath before insertion. -/
theorem buildInputs_keys_sanitized (ctx : BuildContext) (pats : Patterns) (g : GlobResults) :
    ∀ k ∈ (buildInputs ctx pats g).map Prod.fst, ∀ c ∈ k, allowedChar c = true := by
  exact addAll_keys_allowed (insertionSequence ctx pats g) [] (by simp)

/-- Witness for C4 at the accordion example. -/
theorem buildInputs_keys_sanitized_witness : allowedChar 'd' = true :=
  buildInputs_keys_sanitized exCtx exPats exGlobs
    (jstr "components/accordion/accordion") (by decide) 'd' (by decide)

/-- C10: for a relative path containing no slash, replaceLastSlash returns
its input unchanged, and computeOutputStem in non-SDC mode therefore only
removes the extension without inserting a css/ or js/ bucket segment. -/
theorem replaceLastSlash_noop_without_slash (s repl rel : JStr) (t : AssetType)
    (hs : '/' ∉ s) (hrel : '/' ∉ rel) :
    replaceLastSlash s repl = s ∧
    computeOutputStem rel t false = stripJsScssExt rel := by
  have hlast : ∀ (x : JStr), ('/' ∉ x) → lastIdxOf '/' x = none := by
    intro x hx
    unfold lastIdxOf
    have hfind : x.reverse.findIdx? (fun c => c == '/') = none := by
      rw [List.findIdx?_eq_none_iff]
      intro c hc
      have hmem : c ∈ x := List.mem_reverse.mp hc
      have : c ≠ '/' := fun hceq => hx (hceq ▸ hmem)
      simpa using this
    rw [hfind]
  constructor
  · unfold replaceLastSlash
    rw [hlast s hs]
  · show stripJsScssExt (replaceLastSlash rel (jstr "/" ++ bucketName t ++ jstr "/")) =
      stripJsScssExt rel
    unfold replaceLastSlash
    rw [hlast rel hrel]

/-- Witness for C10 at a slash-free relative path. -/
theorem replaceLastSlash_noop_without_slash_witness :
    replaceLastSlash (jstr "header.js") (jstr "/js/") = jstr "header.js" ∧
    computeOutputStem (jstr "header.scss") AssetType.css false = stripJsScssExt (jstr "header.scss") :=
  replaceLastSlash_noop_without_slash (jstr "header.js") (jstr "/js/")
    (jstr "header.scss") AssetType.css (by decide) (by decide)

theorem stripJsScssExt_append_scss (x : JStr) :
    stripJsScssExt (x ++ jstr ".scss") = x := by
  have hlen : (x ++ jstr ".scss").length = x.length + 5 := by simp [jstr]
  have hdrop : (x ++ jstr ".scss").drop ((x ++ jstr ".scss").length - 5) = jstr ".scss" := by
    rw [hlen]
    have h2 : x.length + 5 - 5 = x.length := by omega
    rw [h2]
    exact List.drop_left x (jstr ".scss")
  have hci : ciEndsWith (x ++ jstr ".scss") (jstr ".scss") = true := by
    unfold ciEndsWith
    rw [show (jstr ".scss").length = 5 from rfl]
    rw [hdrop]
    have h5 : (5 : Nat) ≤ (x ++ jstr ".scss").length := by rw [hlen]; omega
    simp only [decide_eq_true h5, Bool.true_and]
    decide
  unfold stripJsScssExt
  rw [hci]
  simp only [if_true]
  rw [hlen]
  have h2 : x.length + 5 - 5 = x.length := by omega
  rw [h2]
  exact List.take_left x (jstr ".scss")

theorem stripJsScssExt_append_js (x : JStr) :
    stripJsScssExt (x ++ jstr ".js") = x := by
  have hlen : (x ++ jstr ".js").length = x.length + 3 := by simp [jstr]
  have hdrop3 : (x ++ jstr ".js").drop ((x ++ jstr ".js").length - 3) = jstr ".js" := by
    rw [hlen]
    have h2 : x.length + 3 - 3 = x.length := by omega
    rw [h2]
    exact List.drop_left x (jstr ".js")
  have hscss : ciEndsWith (x ++ jstr ".js") (jstr ".scss") = false := by
    by_cases h5 : (5 : Nat) ≤ (x ++ jstr ".js").length
    · by_contra hne
      rw [Bool.not_eq_false] at hne
      unfold ciEndsWith at hne
      rw [Bool.and_eq_true] at hne
      obtain ⟨_, heq⟩ := hne
      rw [beq_iff_eq] at heq
      have hstep := congrArg (List.drop 2) heq
      rw [← List.map_drop, List.drop_drop] at hstep
      have h23 : (x ++ jstr ".js").length - (jstr ".scss").length + 2 =
          (x ++ jstr ".js").length - 3 := by
        rw [show (jstr ".scss").length = 5 from rfl]
        omega
      rw [h23, hdrop3] at hstep
      exact absurd hstep (by decide)
    · unfold ciEndsWith
      rw [show (jstr ".scss").length = 5 from rfl]
      simp only [decide_eq_false h5, Bool.false_and]
  have hjs : ciEndsWith (x ++ jstr ".js") (jstr ".js") = true := by
    unfold ciEndsWith
    rw [show (jstr ".js").length = 3 from rfl]
    rw [hdrop3]
    have h3 : (3 : Nat) ≤ (x ++ jstr ".js").length := by rw [hlen]; omega
    simp only [decide_eq_true h3, Bool.true_and]
    decide
  unfold stripJsScssExt
  rw [hscss, hjs]
  simp only [Bool.false_eq_true, if_false, if_true]
  rw [hlen]
  have h2 : x.length + 3 - 3 = x.length := by omega
  rw [h2]
  exact List.take_left x (jstr ".js")

theorem dropPrefixIfMatch_append (pre rest : JStr) :
    dropPrefixIfMatch pre (pre ++ rest) = rest := by
  unfold dropPrefixIfMatch
  have hp : pre.isPrefixOf (pre ++ rest) = true :=
    List.isPrefixOf_iff_prefix.mpr ⟨rest, rfl⟩
  rw [hp]
  simp only [if_true]
  exact List.drop_left pre rest

theorem cleanKey_components (rest : JStr) (h : ∀ c ∈ rest, allowedChar c = true) :
    cleanKey (jstr "components/" ++ rest) = jstr "components/" ++ rest := by
  unfold cleanKey
  rw [show jstr "components/" ++ rest = 'c' :: (jstr "omponents/" ++ rest) from rfl]
  rw [List.dropWhile_cons]
  have hc : ¬(('c' == '/') = true) := by decide
  rw [if_neg hc]
  unfold sanitizePath
  rw [List.filter_eq_self]
  intro a ha
  rcases List.mem_cons.mp ha with ha | ha
  · subst ha; decide
  · rcases List.mem_append.mp ha with ha | ha
    · exact (by decide : ∀ b ∈ jstr "omponents/", allowedChar b = true) a ha
    · exact h a ha

theorem stripStyleHelper_append (k : JStr) :
    stripStyleHelper (k ++ jstr "__style.css") = k ++ jstr ".css" := by
  unfold stripStyleHelper
  have h1 : plainEndsWith (k ++ jstr "__style.css") (jstr "__style.css") = true := by
    unfold plainEndsWith
    exact List.isSuffixOf_iff_suffix.mpr ⟨k, rfl⟩
  rw [h1]
  simp only [if_true]
  have hlen : (k ++ jstr "__style.css").length - (jstr "__style.css").length = k.length := by
    simp [jstr]
  rw [hlen]
  rw [List.take_left k (jstr "__style.css")]

theorem assetFileNames_style (k : JStr) :
    assetFileNames (k ++ jstr "__style.css") = k ++ jstr ".css" := by
  unfold assetFileNames
  have h1 : plainEndsWith (k ++ jstr "__style.css") (jstr ".css") = true := by
    unfold plainEndsWith
    apply List.isSuffixOf_iff_suffix.mpr
    exact ⟨k ++ jstr "__style", by simp [jstr]⟩
  rw [h1]
  simp only [Bool.true_or, if_true]
  exact stripStyleHelper_append k

theorem computeOutputStem_sdc_js (x : JStr) :
    computeOutputStem (x ++ jstr ".js") AssetType.js true = x := by
  show stripJsScssExt (x ++ jstr ".js") = x
  exact stripJsScssExt_append_js x

theorem computeOutputStem_sdc_css (x : JStr) :
    computeOutputStem (x ++ jstr ".scss") AssetType.css true = x ++ jstr "__style" := by
  show stripJsScssExt (x ++ jstr ".scss") ++ jstr "__style" = x ++ jstr "__style"
  rw [stripJsScssExt_append_scss]

/-- C2: in SDC mode, a script and a stylesheet with the same path stem in
the same component directory produce two distinct keys (the stem, and the
stem with "__style" appended), and the output naming steps emit
stem.js for the script key and stem.css (helper suffix stripped) for the
stylesheet key. -/
theorem sdc_style_suffix_roundtrip
    (proj src dir stem : JStr) (pats : Patterns)
    (hall : ∀ c ∈ dir ++ jstr "/" ++ stem, allowedChar c = true)
    (hjs : firstIdxOfSub componentMarker
        (src ++ jstr "/components/" ++ (dir ++ jstr "/" ++ stem) ++ jstr ".js") = some src.length)
    (hcss : firstIdxOfSub componentMarker
        (src ++ jstr "/components/" ++ (dir ++ jstr "/" ++ stem) ++ jstr ".scss") = some src.length) :
    buildInputs ⟨proj, src, true, true⟩ pats
        ⟨[], [src ++ jstr "/components/" ++ (dir ++ jstr "/" ++ stem) ++ jstr ".js"],
         [], [src ++ jstr "/components/" ++ (dir ++ jstr "/" ++ stem) ++ jstr ".scss"], []⟩ =
      [(jstr "components/" ++ (dir ++ jstr "/" ++ stem),
          src ++ jstr "/components/" ++ (dir ++ jstr "/" ++ stem) ++ jstr ".js"),
       (jstr "components/" ++ (dir ++ jstr "/" ++ stem) ++ jstr "__style",
          src ++ jstr "/components/" ++ (dir ++ jstr "/" ++ stem) ++ jstr ".scss")] ∧
    jstr "components/" ++ (dir ++ jstr "/" ++ stem) ≠
      jstr "components/" ++ (dir ++ jstr "/" ++ stem) ++ jstr "__style" ∧
    entryFileName (jstr "components/" ++ (dir ++ jstr "/" ++ stem)) =
      jstr "components/" ++ (dir ++ jstr "/" ++ stem) ++ jstr ".js" ∧
    assetFileNames (jstr "components/" ++ (dir ++ jstr "/" ++ stem) ++ jstr "__style" ++ jstr ".css") =
      jstr "components/" ++ (dir ++ jstr "/" ++ stem) ++ jstr ".css" := by
  set R := dir ++ jstr "/" ++ stem with hR
  have hmarklen : componentMarker.length = 12 := rfl
  -- the marker slice recovers the path below components/ for both files
  have hsliceJs :
      afterComponentsMarker src (src ++ jstr "/components/" ++ R ++ jstr ".js") = R ++ jstr ".js" := by
    unfold afterComponentsMarker
    rw [hjs]
    have hform : src ++ jstr "/components/" ++ R ++ jstr ".js" =
        (src ++ componentMarker) ++ (R ++ jstr ".js") := by
      simp [componentMarker, List.append_assoc]
    rw [hform]
    show List.drop (src.length + componentMarker.length)
      ((src ++ componentMarker) ++ (R ++ jstr ".js")) = R ++ jstr ".js"
    rw [show src.length + componentMarker.length = (src ++ componentMarker).length by
      simp [componentMarker, jstr]]
    exact List.drop_left _ _
  have hsliceCss :
      afterComponentsMarker src (src ++ jstr "/components/" ++ R ++ jstr ".scss") = R ++ jstr ".scss" := by
    unfold afterComponentsMarker
    rw [hcss]
    have hform : src ++ jstr "/components/" ++ R ++ jstr ".scss" =
        (src ++ componentMarker) ++ (R ++ jstr ".scss") := by
      simp [componentMarker, List.append_assoc]
    rw [hform]
    show List.drop (src.length + componentMarker.length)
      ((src ++ componentMarker) ++ (R ++ jstr ".scss")) = R ++ jstr ".scss"
    rw [show src.length + componentMarker.length = (src ++ componentMarker).length by
      simp [componentMarker, jstr]]
    exact List.drop_left _ _
  -- the two raw keys
  have hkeyJs :
      componentStemKey src true AssetType.js (src ++ jstr "/components/" ++ R ++ jstr ".js") =
        jstr "components/" ++ R := by
    unfold componentStemKey
    rw [hsliceJs]
    rw [show jstr "components/" ++ (R ++ jstr ".js") = (jstr "components/" ++ R) ++ jstr ".js" by
      simp [List.append_assoc]]
    rw [computeOutputStem_sdc_js]
    rw [show jstr "components/" ++ R = jstr "components/" ++ R from rfl]
    rw [dropPrefixIfMatch_append]
  have hkeyCss :
      componentStemKey src true AssetType.css (src ++ jstr "/components/" ++ R ++ jstr ".scss") =
        jstr "components/" ++ (R ++ jstr "__style") := by
    unfold componentStemKey
    rw [hsliceCss]
    rw [show jstr "components/" ++ (R ++ jstr ".scss") = (jstr "components/" ++ R) ++ jstr ".scss" by
      simp [List.append_assoc]]
    rw [computeOutputStem_sdc_css]
    rw [show (jstr "components/" ++ R) ++ jstr "__style" = jstr "components/" ++ (R ++ jstr "__style") by
      simp [List.append_assoc]]
    rw [dropPrefixIfMatch_append]
  -- character hypotheses for the clean keys
  have hallStyle : ∀ c ∈ R ++ jstr "__style", allowedChar c = true := by
    intro c hc
    rcases List.mem_append.mp hc with hc | hc
    · exact hall c hc
    · exact (by decide : ∀ b ∈ jstr "__style", allowedChar b = true) c hc
  have hcleanJs : cleanKey (jstr "components/" ++ R) = jstr "components/" ++ R :=
    cleanKey_components R hall
  have hcleanCss : cleanKey (jstr "components/" ++ (R ++ jstr "__style")) =
      jstr "components/" ++ (R ++ jstr "__style") :=
    cleanKey_components (R ++ jstr "__style") hallStyle
  have hKne : jstr "components/" ++ R ≠ jstr "components/" ++ (R ++ jstr "__style") := by
    intro h
    have hlen := congrArg List.length h
    simp [jstr] at hlen
  -- evaluate the insertion sequence
  have hseq : insertionSequence ⟨proj, src, true, true⟩ pats
      ⟨[], [src ++ jstr "/components/" ++ R ++ jstr ".js"],
       [], [src ++ jstr "/components/" ++ R ++ jstr ".scss"], []⟩ =
      [(jstr "components/" ++ R, src ++ jstr "/components/" ++ R ++ jstr ".js"),
       (jstr "components/" ++ (R ++ jstr "__style"), src ++ jstr "/components/" ++ R ++ jstr ".scss")] := by
    unfold insertionSequence
    simp only [List.map_nil, List.map_cons, ite_self, List.append_nil, List.nil_append]
    rw [hkeyJs, hkeyCss]
    rfl
  -- evaluate the fold of the add closure
  have hmap : buildInputs ⟨proj, src, true, true⟩ pats
      ⟨[], [src ++ jstr "/components/" ++ R ++ jstr ".js"],
       [], [src ++ jstr "/components/" ++ R ++ jstr ".scss"], []⟩ =
      [(jstr "components/" ++ R, src ++ jstr "/components/" ++ R ++ jstr ".js"),
       (jstr "components/" ++ (R ++ jstr "__style"), src ++ jstr "/components/" ++ R ++ jstr ".scss")] := by
    have hne1 : (jstr "components/" ++ R).isEmpty = false := by
      rw [show jstr "components/" ++ R = 'c' :: (jstr "omponents/" ++ R) from rfl]
      rfl
    have hne2 : (jstr "components/" ++ (R ++ jstr "__style")).isEmpty = false := by
      rw [show jstr "components/" ++ (R ++ jstr "__style") =
        'c' :: (jstr "omponents/" ++ (R ++ jstr "__style")) from rfl]
      rfl
    have hany : ([(jstr "components/" ++ R, src ++ jstr "/components/" ++ R ++ jstr ".js")].any
        (fun p => p.1 == jstr "components/" ++ (R ++ jstr "__style"))) = false := by
      simp only [List.any_cons, List.any_nil, Bool.or_false]
      exact beq_eq_false_iff_ne.mpr hKne
    have hstep1 : addEntry [] (jstr "components/" ++ R)
        (src ++ jstr "/components/" ++ R ++ jstr ".js") =
        [(jstr "components/" ++ R, src ++ jstr "/components/" ++ R ++ jstr ".js")] := by
      unfold addEntry
      rw [hcleanJs]
      simp [hne1]
    have hstep2 : addEntry
        [(jstr "components/" ++ R, src ++ jstr "/components/" ++ R ++ jstr ".js")]
        (jstr "components/" ++ (R ++ jstr "__style"))
        (src ++ jstr "/components/" ++ R ++ jstr ".scss") =
        [(jstr "components/" ++ R, src ++ jstr "/components/" ++ R ++ jstr ".js"),
         (jstr "components/" ++ (R ++ jstr "__style"), src ++ jstr "/components/" ++ R ++ jstr ".scss")] := by
      unfold addEntry
      rw [hcleanCss]
      simp [hne2, hany]
      decide
    unfold buildInputs
    rw [hseq]
    unfold addAll
    simp only [List.foldl_cons, List.foldl_nil]
    rw [hstep1, hstep2]
  refine ⟨?_, ?_, rfl, ?_⟩
  · rw [hmap]
    simp [List.append_assoc]
  · intro h
    have hlen := congrArg List.length h
    simp [jstr] at hlen
  · rw [show jstr "components/" ++ R ++ jstr "__style" ++ jstr ".css" =
        (jstr "components/" ++ R) ++ jstr "__style.css" by simp [jstr, List.append_assoc]]
    rw [assetFileNames_style]

/-- Witness for C2 at the accordion example of the specification. -/
theorem sdc_style_suffix_roundtrip_witness :
    buildInputs ⟨jstr "/proj", jstr "/proj/src", true, true⟩ exPats
        ⟨[], [jstr "/proj/src" ++ jstr "/components/" ++ (jstr "accordion" ++ jstr "/" ++ jstr "accordion") ++ jstr ".js"],
         [], [jstr "/proj/src" ++ jstr "/components/" ++ (jstr "accordion" ++ jstr "/" ++ jstr "accordion") ++ jstr ".scss"], []⟩ =
      [(jstr "components/" ++ (jstr "accordion" ++ jstr "/" ++ jstr "accordion"),
          jstr "/proj/src" ++ jstr "/components/" ++ (jstr "accordion" ++ jstr "/" ++ jstr "accordion") ++ jstr ".js"),
       (jstr "components/" ++ (jstr "accordion" ++ jstr "/" ++ jstr "accordion") ++ jstr "__style",
          jstr "/proj/src" ++ jstr "/components/" ++ (jstr "accordion" ++ jstr "/" ++ jstr "accordion") ++ jstr ".scss")] ∧
    jstr "components/" ++ (jstr "accordion" ++ jstr "/" ++ jstr "accordion") ≠
      jstr "components/" ++ (jstr "accordion" ++ jstr "/" ++ jstr "accordion") ++ jstr "__style" ∧
    entryFileName (jstr "components/" ++ (jstr "accordion" ++ jstr "/" ++ jstr "accordion")) =
      jstr "components/" ++ (jstr "accordion" ++ jstr "/" ++ jstr "accordion") ++ jstr ".js" ∧
    assetFileNames (jstr "components/" ++ (jstr "accordion" ++ jstr "/" ++ jstr "accordion") ++ jstr "__style" ++ jstr ".css") =
      jstr "components/" ++ (jstr "accordion" ++ jstr "/" ++ jstr "accordion") ++ jstr ".css" :=
  sdc_style_suffix_roundtrip (jstr "/proj") (jstr "/proj/src") (jstr "accordion") (jstr "accordion")
    exPats (by decide) (by decide) (by decide)

/-- Example environment without a src/ directory (legacy components/ root). -/
def exCtxNoSrc : BuildContext := ⟨jstr "/proj", jstr "/proj/components", false, false⟩

theorem resolvePath_ne_nil (b r : JStr) : resolvePath b r ≠ [] := by
  unfold resolvePath
  rw [show jstr "/" = ['/'] from rfl]
  intro hh
  rcases List.append_eq_nil.mp hh with ⟨h1, _⟩
  rcases List.append_eq_nil.mp h1 with ⟨_, h3⟩
  exact List.cons_ne_nil _ _ h3

/-- C9 counterexample: with srcExists false the pattern builder does not
return empty glob patterns; the component, component-library and sprite
patterns are all non-empty (only the base/global patterns are empty). -/
theorem makePatterns_absent_src_not_all_empty :
    exCtxNoSrc.srcExists = false ∧
    (makePatterns exCtxNoSrc).ComponentScssPattern ≠ [] ∧
    (makePatterns exCtxNoSrc).ComponentJsPattern ≠ [] ∧
    (makePatterns exCtxNoSrc).ComponentLibraryScssPattern ≠ [] ∧
    (makePatterns exCtxNoSrc).SpritePattern ≠ [] := by
  refine ⟨rfl, ?_, ?_, ?_, ?_⟩ <;> decide

/-- C9 (amended): the pattern builder is a total function, and when
srcExists is false the base/global stylesheet and script patterns are the
empty string, so no global files are matched; the component script and
stylesheet patterns are instead rooted at the fallback source directory and
are non-empty, and the component-library and sprite patterns are produced
unconditionally, the former rooted at the source directory, the latter at
the project directory. -/
theorem makePatterns_absent_src (ctx : BuildContext) (h : ctx.srcExists = false) :
    (makePatterns ctx).BaseScssPattern = [] ∧
    (makePatterns ctx).BaseJsPattern = [] ∧
    (makePatterns ctx).ComponentScssPattern =
      resolvePath ctx.srcDir (jstr "**/!(_*|cl-*|sb-*).scss") ∧
    (makePatterns ctx).ComponentJsPattern =
      resolvePath ctx.srcDir (jstr "**/!(*.stories|*.component|*.min|*.test).js") ∧
    (makePatterns ctx).ComponentLibraryScssPattern =
      resolvePath ctx.srcDir (jstr "**/*\x7bcl-*,sb-*\x7d.scss") ∧
    (makePatterns ctx).SpritePattern =
      resolvePath ctx.projectDir (jstr "assets/icons/**/*.svg") ∧
    (makePatterns ctx).ComponentScssPattern ≠ [] := by
  have h3 : (makePatterns ctx).ComponentScssPattern =
      resolvePath ctx.srcDir (jstr "**/!(_*|cl-*|sb-*).scss") := by
    simp [makePatterns, h]
  refine ⟨by simp [makePatterns, h], by simp [makePatterns, h], h3,
    by simp [makePatterns, h], rfl, rfl, ?_⟩
  rw [h3]
  exact resolvePath_ne_nil _ _

/-- Witness for the amended C9 at the fallback environment. -/
theorem makePatterns_absent_src_witness :
    (makePatterns exCtxNoSrc).BaseScssPattern = [] ∧
    (makePatterns exCtxNoSrc).BaseJsPattern = [] ∧
    (makePatterns exCtxNoSrc).ComponentScssPattern =
      resolvePath exCtxNoSrc.srcDir (jstr "**/!(_*|cl-*|sb-*).scss") ∧
    (makePatterns exCtxNoSrc).ComponentJsPattern =
      resolvePath exCtxNoSrc.srcDir (jstr "**/!(*.stories|*.component|*.min|*.test).js") ∧
    (makePatterns exCtxNoSrc).ComponentLibraryScssPattern =
      resolvePath exCtxNoSrc.srcDir (jstr "**/*\x7bcl-*,sb-*\x7d.scss") ∧
    (makePatterns exCtxNoSrc).SpritePattern =
      resolvePath exCtxNoSrc.projectDir (jstr "assets/icons/**/*.svg") ∧
    (makePatterns exCtxNoSrc).ComponentScssPattern ≠ [] :=
  makePatterns_absent_src exCtxNoSrc rfl

/-- Model of a parsed JSON value, as produced by JSON.parse (arrays are not
needed by any code path under verification). -/
inductive JVal where
  | jnull
  | jbool (b : Bool)
  | jnum (n : Int)
  | jstrv (s : JStr)
  | jobj (fields : List (String × JVal))

/-- JavaScript member access `j.k` (also `j?.k`): a field of an object, and
undefined (none) on every non-object or missing field. -/
def jget (j : JVal) (k : String) : Option JVal :=
  match j with
  | JVal.jobj fields => (fields.find? (fun p => p.1 == k)).map (fun p => p.2)
  | _ => none

/-- JavaScript truthiness of a JSON value. -/
def jsTruthy : JVal → Bool
  | JVal.jnull => false
  | JVal.jbool b => b
  | JVal.jnum n => !(n == 0)
  | JVal.jstrv s => !s.isEmpty
  | JVal.jobj _ => true

/-- JavaScript toString of a JSON value. -/
def jsToString : JVal → JStr
  | JVal.jnull => jstr "null"
  | JVal.jbool true => jstr "true"
  | JVal.jbool false => jstr "false"
  | JVal.jnum n => jstr (toString n)
  | JVal.jstrv s => s
  | JVal.jobj _ => jstr "[object Object]"

/-- First operand of a JavaScript or-chain: keep the value only when
truthy. -/
def optTruthy (o : Option JVal) : Option JVal :=
  match o with
  | some v => if jsTruthy v then some v else none
  | none => none

/-- Model of `String.prototype.trim`. -/
def jsTrim (s : JStr) : JStr :=
  ((s.dropWhile Char.isWhitespace).reverse.dropWhile Char.isWhitespace).reverse

/-- Model of `String.prototype.toLowerCase` on the ASCII range. -/
def jsToLower (s : JStr) : JStr := s.map toLowerAscii

/-- State of the project descriptor file project.emulsify.json on disk:
absent, present with content JSON.parse rejects, or present and parsed. -/
inductive RawDescriptor where
  | missing
  | malformed
  | wellFormed (j : JVal)

/-- Filesystem state consumed by the environment resolvers: the descriptor
file and whether the src/ directory is present. -/
structure FsState where
  descriptor : RawDescriptor
  srcDirPresent : Bool

/-- Environment variables read by the part_015 resolver. -/
structure EnvVars where
  emulsifyPlatform : Option JStr
  emulsifySdc : Option JStr

/-- Embedding of isSubpath from part_015 (lines 45-49): string prefix check
on the normalized paths with a trailing separator appended. -/
def isSubpath (root cand : JStr) : Bool :=
  (root ++ jstr "/").isPrefixOf (cand ++ jstr "/")

/-- Embedding of safeExists from part_015 (lines 59-65); `present` is the
filesystem's answer for the target path (existsSync). -/
def safeExists (present : Bool) (projectDir relName : JStr) : Bool :=
  let target := resolvePath projectDir relName
  if !(isSubpath projectDir target) then false else present

/-- Embedding of safeReadJson from part_015 (lines 74-88): only the
whitelisted descriptor name is readable; a missing file or a JSON.parse
error both yield null (the try/catch swallows the parse failure). -/
def safeReadJson (fs : FsState) (projectDir relName : JStr) : Option JVal :=
  if relName != jstr "project.emulsify.json" then none
  else
    let target := resolvePath projectDir relName
    if !(isSubpath projectDir target) then none
    else
      match fs.descriptor with
      | RawDescriptor.missing => none
      | RawDescriptor.malformed => none
      | RawDescriptor.wellFormed j => some j

/-- Embedding of the projectSection computation of part_015 (lines
133-142): the project field of the parsed config when the config is a
truthy object and the field itself is truthy. -/
def projectSectionOf (config : Option JVal) : Option JVal :=
  match config with
  | some (JVal.jobj fields) =>
    match (fields.find? (fun p => p.1 == "project")).map (fun p => p.2) with
    | some p => if jsTruthy p then some p else none
    | none => none
  | _ => none

/-- Embedding of the envPlatform computation of part_015 (lines 145-148):
`(process.env.EMULSIFY_PLATFORM || '').toString().trim().toLowerCase()`. -/
def envPlatformOf (env : EnvVars) : JStr :=
  jsToLower (jsTrim (env.emulsifyPlatform.getD []))

/-- Embedding of the cfgPlatform computation of part_015 (lines 149-158):
`(projectSection?.platform || (config && typeof config === 'object' &&
config.platform) || '').toString().trim().toLowerCase()`. -/
def cfgPlatformOf (fs : FsState) (projectDir : JStr) : JStr :=
  let config := safeReadJson fs projectDir (jstr "project.emulsify.json")
  let projectSection := projectSectionOf config
  let raw := ((optTruthy (projectSection.bind (fun p => jget p "platform"))).or
      (optTruthy (config.bind (fun c => jget c "platform")))).getD (JVal.jstrv [])
  jsToLower (jsTrim (jsToString raw))

/-- Embedding of the platform resolution of part_015 (line 160):
`envPlatform || cfgPlatform || 'generic'`. -/
def platformOf (fs : FsState) (projectDir : JStr) (env : EnvVars) : JStr :=
  let e := envPlatformOf env
  if !e.isEmpty then e
  else
    let c := cfgPlatformOf fs projectDir
    if !c.isEmpty then c else jstr "generic"

/-- Embedding of the SDC resolution of part_015 (lines 163-180): the
EMULSIFY_SDC variable when it spells a boolean, else the boolean
singleDirectoryComponents field of the project section, else false. -/
def sdcOf (fs : FsState) (projectDir : JStr) (env : EnvVars) : Bool :=
  let envSDC := jsToLower (jsTrim (env.emulsifySdc.getD []))
  let envBool : Option Bool :=
    if envSDC == jstr "1" || envSDC == jstr "true" then some true
    else if envSDC == jstr "0" || envSDC == jstr "false" then some false
    else none
  let cfgSDC :=
    match (projectSectionOf (safeReadJson fs projectDir (jstr "project.emulsify.json"))).bind
        (fun p => jget p "singleDirectoryComponents") with
    | some (JVal.jbool b) => b
    | _ => false
  envBool.getD cfgSDC

/-- Record returned by the part_015 resolveEnvironment. -/
structure ResolvedEnv where
  projectDir : JStr
  srcDir : JStr
  srcExists : Bool
  platform : JStr
  isDrupal : Bool
  SDC : Bool

/-- Embedding of resolveEnvironment from part_015 (lines 118-190): the safe
best-effort resolver.  It is a total function: no code path raises. -/
def resolveEnvironment (projectDir : JStr) (fs : FsState) (env : EnvVars) : ResolvedEnv :=
  let hasSrc := safeExists fs.srcDirPresent projectDir (jstr "src")
  let srcDir := if hasSrc then resolvePath projectDir (jstr "src")
    else resolvePath projectDir (jstr "components")
  let platform := platformOf fs projectDir env
  { projectDir := projectDir
    srcDir := srcDir
    srcExists := hasSrc
    platform := platform
    isDrupal := platform == jstr "drupal"
    SDC := sdcOf fs projectDir env }

/-- Record returned by the environment.js resolveEnvironment. -/
structure EnvJs where
  projectDir : JStr
  emulsifyConfigPath : JStr
  emulsifyConfig : JVal
  isDrupal : Bool
  srcDir : JStr
  srcExists : Bool

/-- Embedding of `emulsifyConfig?.project?.platform === 'drupal'` from
environment.js line 30. -/
def isDrupalOf (cfg : JVal) : Bool :=
  match (jget cfg "project").bind (fun p => jget p "platform") with
  | some (JVal.jstrv s) => s == jstr "drupal"
  | _ => false

/-- Embedding of resolveEnvironment from environment.js (lines 23-44).
This variant calls JSON.parse without a try/catch, so a present but
malformed descriptor propagates the parse exception, modelled as
Except.error; a missing file falls back to the default config object. -/
def resolveEnvironmentJs (projectDir : JStr) (fs : FsState) : Except JStr EnvJs :=
  let emulsifyConfigPath := resolvePath projectDir (jstr "project.emulsify.json")
  let cfgE : Except JStr JVal :=
    match fs.descriptor with
    | RawDescriptor.missing =>
      Except.ok (JVal.jobj [("project", JVal.jobj [("platform", JVal.jstrv (jstr "generic"))])])
    | RawDescriptor.malformed => Except.error (jstr "SyntaxError")
    | RawDescriptor.wellFormed j => Except.ok j
  match cfgE with
  | Except.error e => Except.error e
  | Except.ok cfg =>
    Except.ok { projectDir := projectDir
                emulsifyConfigPath := emulsifyConfigPath
                emulsifyConfig := cfg
                isDrupal := isDrupalOf cfg
                srcDir := if fs.srcDirPresent then resolvePath projectDir (jstr "src")
                  else resolvePath projectDir (jstr "components")
                srcExists := fs.srcDirPresent }

theorem isSubpath_resolve (base rel : JStr) :
    isSubpath base (resolvePath base rel) = true := by
  unfold isSubpath resolvePath
  apply List.isPrefixOf_iff_prefix.mpr
  exact ⟨rel ++ jstr "/", by simp [List.append_assoc]⟩

theorem safeReadJson_descriptor (fs : FsState) (projectDir : JStr) :
    safeReadJson fs projectDir (jstr "project.emulsify.json") =
      match fs.descriptor with
      | RawDescriptor.missing => none
      | RawDescriptor.malformed => none
      | RawDescriptor.wellFormed j => some j := by
  unfold safeReadJson
  simp only [show (jstr "project.emulsify.json" != jstr "project.emulsify.json") = false by decide,
    Bool.false_eq_true, if_false, isSubpath_resolve, Bool.not_true]

theorem cfgPlatformOf_absent (fs : FsState) (projectDir : JStr)
    (h : fs.descriptor = RawDescriptor.missing ∨ fs.descriptor = RawDescriptor.malformed) :
    cfgPlatformOf fs projectDir = [] := by
  unfold cfgPlatformOf
  rw [safeReadJson_descriptor]
  rcases h with h | h <;> rw [h] <;> rfl

theorem sdcOf_default (fs : FsState) (projectDir : JStr) (env : EnvVars)
    (hd : fs.descriptor = RawDescriptor.missing ∨ fs.descriptor = RawDescriptor.malformed)
    (he : env.emulsifySdc = none) :
    sdcOf fs projectDir env = false := by
  unfold sdcOf
  rw [safeReadJson_descriptor, he]
  rcases hd with h | h <;> rw [h] <;> rfl

/-- Concrete filesystem with a malformed descriptor. -/
def fsMalformed : FsState := ⟨RawDescriptor.malformed, true⟩

/-- Concrete filesystem with no descriptor. -/
def fsMissing : FsState := ⟨RawDescriptor.missing, true⟩

/-- Environment with no overriding variables. -/
def envNone : EnvVars := ⟨none, none⟩

/-- C3 counterexample: the environment.js resolver throws on a present but
malformed project.emulsify.json (JSON.parse is called without try/catch),
so resolving the environment can raise; the claim that it never throws and
returns the defaults is false on this variant. -/
theorem resolveEnvironmentJs_throws_on_malformed :
    resolveEnvironmentJs (jstr "/proj") fsMalformed = Except.error (jstr "SyntaxError") := rfl

/-- C3 (amended): the safeReadJson-based resolver of part_015 never throws
(it is total) and yields the defaults (platform generic, flags false) for a
missing or malformed descriptor when the overriding environment variables
are unset; the environment.js resolver yields the defaults only when the
descriptor file is missing, and propagates the JSON.parse error when the
file holds malformed JSON. -/
theorem resolveEnvironment_best_effort_defaults :
    (∀ (projectDir : JStr) (fs : FsState) (env : EnvVars),
      (fs.descriptor = RawDescriptor.missing ∨ fs.descriptor = RawDescriptor.malformed) →
      env.emulsifyPlatform = none → env.emulsifySdc = none →
      (resolveEnvironment projectDir fs env).platform = jstr "generic" ∧
      (resolveEnvironment projectDir fs env).SDC = false ∧
      (resolveEnvironment projectDir fs env).isDrupal = false) ∧
    (∀ (projectDir : JStr) (fs : FsState), fs.descriptor = RawDescriptor.missing →
      ∃ e, resolveEnvironmentJs projectDir fs = Except.ok e ∧ e.isDrupal = false) := by
  constructor
  · intro projectDir fs env hd hp hs
    have hplat : platformOf fs projectDir env = jstr "generic" := by
      unfold platformOf envPlatformOf
      rw [hp]
      rw [cfgPlatformOf_absent fs projectDir hd]
      rfl
    refine ⟨?_, ?_, ?_⟩
    · show platformOf fs projectDir env = jstr "generic"
      exact hplat
    · show sdcOf fs projectDir env = false
      exact sdcOf_default fs projectDir env hd hs
    · show (platformOf fs projectDir env == jstr "drupal") = false
      rw [hplat]
      decide
  · intro projectDir fs hd
    have h1 : resolveEnvironmentJs projectDir fs =
        Except.ok { projectDir := projectDir
                    emulsifyConfigPath := resolvePath projectDir (jstr "project.emulsify.json")
                    emulsifyConfig :=
                      JVal.jobj [("project", JVal.jobj [("platform", JVal.jstrv (jstr "generic"))])]
                    isDrupal := isDrupalOf
                      (JVal.jobj [("project", JVal.jobj [("platform", JVal.jstrv (jstr "generic"))])])
                    srcDir := if fs.srcDirPresent then resolvePath projectDir (jstr "src")
                      else resolvePath projectDir (jstr "components")
                    srcExists := fs.srcDirPresent } := by
      unfold resolveEnvironmentJs
      rw [hd]
    exact ⟨_, h1, rfl⟩

/-- Witness for the amended C3 at a concrete missing descriptor. -/
theorem resolveEnvironment_best_effort_defaults_witness :
    (resolveEnvironment (jstr "/proj") fsMissing envNone).platform = jstr "generic" ∧
    (resolveEnvironment (jstr "/proj") fsMissing envNone).SDC = false ∧
    (resolveEnvironment (jstr "/proj") fsMissing envNone).isDrupal = false :=
  resolveEnvironment_best_effort_defaults.1 (jstr "/proj") fsMissing envNone (Or.inl rfl) rfl rfl

theorem safeReadJson_wellFormed (fs : FsState) (projectDir : JStr) (j : JVal)
    (h : fs.descriptor = RawDescriptor.wellFormed j) :
    safeReadJson fs projectDir (jstr "project.emulsify.json") = some j := by
  rw [safeReadJson_descriptor, h]

/-- Environment with EMULSIFY_PLATFORM set to the mixed-case value Drupal. -/
def envDrupalCase : EnvVars := ⟨some (jstr "Drupal"), none⟩

/-- C5 counterexample: with EMULSIFY_PLATFORM set (non-empty) to "Drupal",
the resolved platform is the lowercased "drupal", not the value of the
variable, so the resolved platform does not equal the environment variable
value as the claim states. -/
theorem platform_env_not_verbatim :
    envDrupalCase.emulsifyPlatform = some (jstr "Drupal") ∧
    (resolveEnvironment (jstr "/proj") fsMissing envDrupalCase).platform = jstr "drupal" ∧
    (resolveEnvironment (jstr "/proj") fsMissing envDrupalCase).platform ≠ jstr "Drupal" := by
  refine ⟨rfl, by decide, by decide⟩

/-- C5 (amended): the resolved platform equals the trimmed lowercased value
of EMULSIFY_PLATFORM whenever that processed value is non-empty; otherwise
the trimmed lowercased platform string of the descriptor (the project
section's platform field, with a top-level platform fallback) whenever that
processed value is non-empty; otherwise the default "generic". -/
theorem platform_resolution_order :
    (∀ (projectDir : JStr) (fs : FsState) (env : EnvVars) (s : JStr),
      env.emulsifyPlatform = some s → jsToLower (jsTrim s) ≠ [] →
      (resolveEnvironment projectDir fs env).platform = jsToLower (jsTrim s)) ∧
    (∀ (projectDir : JStr) (fs : FsState) (env : EnvVars),
      envPlatformOf env = [] → cfgPlatformOf fs projectDir ≠ [] →
      (resolveEnvironment projectDir fs env).platform = cfgPlatformOf fs projectDir) ∧
    (∀ (projectDir : JStr) (fs : FsState) (env : EnvVars),
      envPlatformOf env = [] → cfgPlatformOf fs projectDir = [] →
      (resolveEnvironment projectDir fs env).platform = jstr "generic") ∧
    (∀ (projectDir : JStr) (fs : FsState) (env : EnvVars) (j : JVal)
        (flds : List (String × JVal)) (s : JStr),
      env.emulsifyPlatform = none →
      fs.descriptor = RawDescriptor.wellFormed j →
      jget j "project" = some (JVal.jobj flds) →
      jget (JVal.jobj flds) "platform" = some (JVal.jstrv s) →
      jsToLower (jsTrim s) ≠ [] →
      (resolveEnvironment projectDir fs env).platform = jsToLower (jsTrim s)) := by
  have hshow : ∀ (projectDir : JStr) (fs : FsState) (env : EnvVars),
      (resolveEnvironment projectDir fs env).platform = platformOf fs projectDir env :=
    fun _ _ _ => rfl
  have hbne : ∀ (x : JStr), x ≠ [] → x.isEmpty = false := by
    intro x hx
    cases hh : x.isEmpty with
    | false => rfl
    | true => exact absurd (List.isEmpty_iff.mp hh) hx
  have henvcase : ∀ (env : EnvVars) (s : JStr), env.emulsifyPlatform = some s →
      envPlatformOf env = jsToLower (jsTrim s) := by
    intro env s hs
    unfold envPlatformOf
    rw [hs]
    rfl
  have h1 : ∀ (projectDir : JStr) (fs : FsState) (env : EnvVars) (s : JStr),
      env.emulsifyPlatform = some s → jsToLower (jsTrim s) ≠ [] →
      (resolveEnvironment projectDir fs env).platform = jsToLower (jsTrim s) := by
    intro projectDir fs env s hs hne
    rw [hshow]
    simp only [platformOf]
    rw [henvcase env s hs, hbne _ hne]
    rfl
  have h2 : ∀ (projectDir : JStr) (fs : FsState) (env : EnvVars),
      envPlatformOf env = [] → cfgPlatformOf fs projectDir ≠ [] →
      (resolveEnvironment projectDir fs env).platform = cfgPlatformOf fs projectDir := by
    intro projectDir fs env he hc
    rw [hshow]
    simp only [platformOf]
    rw [he, hbne _ hc]
    rfl
  have h3 : ∀ (projectDir : JStr) (fs : FsState) (env : EnvVars),
      envPlatformOf env = [] → cfgPlatformOf fs projectDir = [] →
      (resolveEnvironment projectDir fs env).platform = jstr "generic" := by
    intro projectDir fs env he hc
    rw [hshow]
    simp only [platformOf]
    rw [he, hc]
    rfl
  refine ⟨h1, h2, h3, ?_⟩
  intro projectDir fs env j flds s hp hd hproj hplat hne
  have hsne : s ≠ [] := by
    intro h0
    subst h0
    exact hne rfl
  have hsec : projectSectionOf (some j) = some (JVal.jobj flds) := by
    cases j with
    | jobj topf =>
      have hfind : (topf.find? (fun q => q.1 == "project")).map (fun q => q.2) =
          some (JVal.jobj flds) := by
        simpa [jget] using hproj
      have hred : projectSectionOf (some (JVal.jobj topf)) =
          match (topf.find? (fun q => q.1 == "project")).map (fun q => q.2) with
          | some p => if jsTruthy p = true then some p else none
          | none => none := rfl
      rw [hred, hfind]
      rfl
    | jnull => simp [jget] at hproj
    | jbool b => simp [jget] at hproj
    | jnum n => simp [jget] at hproj
    | jstrv s2 => simp [jget] at hproj
  have hcfg : cfgPlatformOf fs projectDir = jsToLower (jsTrim s) := by
    simp only [cfgPlatformOf]
    rw [safeReadJson_wellFormed fs projectDir j hd]
    rw [hsec]
    rw [Option.some_bind, hplat]
    have htr : optTruthy (some (JVal.jstrv s)) = some (JVal.jstrv s) := by
      show (if (!s.isEmpty) = true then some (JVal.jstrv s) else none) = some (JVal.jstrv s)
      rw [hbne _ hsne]
      rfl
    rw [htr, Option.or_some, Option.getD_some]
    rfl
  have henv : envPlatformOf env = [] := by
    unfold envPlatformOf
    rw [hp]
    rfl
  rw [h2 projectDir fs env henv (by rw [hcfg]; exact hne), hcfg]

/-- Witness for the amended C5 at a mixed-case, padded variable value. -/
theorem platform_resolution_order_witness :
    (resolveEnvironment (jstr "/proj") fsMissing ⟨some (jstr " DRUPAL "), none⟩).platform =
      jsToLower (jsTrim (jstr " DRUPAL ")) :=
  platform_resolution_order.1 (jstr "/proj") fsMissing ⟨some (jstr " DRUPAL "), none⟩
    (jstr " DRUPAL ") rfl (by decide)

/-- Project ignore configuration consumed by a11y.js: the codes and
descriptions lists of the a11y config. -/
structure IgnoreConfig where
  codes : List JStr
  descriptions : List JStr
deriving DecidableEq

/-- One pa11y/axe issue: its rule code and the optional runner description
(runnerExtras.description). -/
structure A11yIssue where
  code : JStr
  runnerDescription : Option JStr
deriving DecidableEq

/-- One pa11y result: the page url and its issues. -/
structure A11yReport where
  pageUrl : JStr
  issues : List A11yIssue
deriving DecidableEq

/-- Embedding of issueIsValid from a11y.js (lines 56-65): an issue is
reported unless its code is in ignore.codes or its description is truthy
(non-empty) and in ignore.descriptions. -/
def issueIsValid (ign : IgnoreConfig) (i : A11yIssue) : Bool :=
  let codeIgnored := ign.codes.contains i.code
  let descIgnored :=
    match i.runnerDescription with
    | some d => !d.isEmpty && ign.descriptions.contains d
    | none => false
  !(codeIgnored || descIgnored)

/-- Embedding of logReport from a11y.js (lines 90-104): whether a component
report has at least one valid (non-ignored) issue. -/
def logReportHasIssues (ign : IgnoreConfig) (r : A11yReport) : Bool :=
  decide (0 < (r.issues.filter (issueIsValid ign)).length)

/-- Embedding of the exit decision of lintReportAndExit from a11y.js (lines
124-136): map each report to its has-issues flag, reject the false flags,
and call process.exit(1) unless the remaining list is empty.  The value is
true exactly when the script exits with status 1. -/
def lintExitsOne (ign : IgnoreConfig) (results : List A11yReport) : Bool :=
  !((results.map (logReportHasIssues ign)).filter (fun b => !(b == false))).isEmpty

/-- Formalization of the ignore predicate exactly as the claim words it: an
issue is ignored when its code is in the ignore.codes list or its runner
description is in the ignore.descriptions list. -/
def claimIgnored (ign : IgnoreConfig) (i : A11yIssue) : Bool :=
  ign.codes.contains i.code ||
    (match i.runnerDescription with
     | some d => ign.descriptions.contains d
     | none => false)

/-- The amended ignore predicate: as the claim, except that a runner
description only counts when it is a non-empty string (JavaScript
truthiness of the description short-circuits the includes check). -/
def amendedIgnored (ign : IgnoreConfig) (i : A11yIssue) : Prop :=
  i.code ∈ ign.codes ∨
    ∃ d, i.runnerDescription = some d ∧ d ≠ [] ∧ d ∈ ign.descriptions

/-- Ignore configuration whose descriptions list holds the empty string. -/
def ignEmptyDesc : IgnoreConfig := ⟨[], [[]]⟩

/-- Issue whose runner description is the empty string. -/
def issueEmptyDesc : A11yIssue := ⟨jstr "WCAG2AA.Principle1", some []⟩

/-- Report with the single empty-description issue. -/
def reportEmptyDesc : A11yReport := ⟨jstr "iframe.html?id=button", [issueEmptyDesc]⟩

/-- C8 counterexample: with ignore.descriptions containing the empty string
and one checked component whose only issue carries an empty runner
description, every issue is ignored in the claim's sense (its description
is in the list), yet the script still exits with status 1, because the
code's truthiness check skips the descriptions lookup for an empty
description. -/
theorem lint_exit_despite_all_ignored :
    lintExitsOne ignEmptyDesc [reportEmptyDesc] = true ∧
    reportEmptyDesc.issues = [issueEmptyDesc] ∧
    claimIgnored ignEmptyDesc issueEmptyDesc = true := by decide

theorem issueIsValid_iff_not_ignored (ign : IgnoreConfig) (i : A11yIssue) :
    issueIsValid ign i = true ↔ ¬ amendedIgnored ign i := by
  have hcontains : ∀ (l : List JStr) (a : JStr), l.contains a = true ↔ a ∈ l :=
    fun _ _ => List.elem_iff
  unfold issueIsValid amendedIgnored
  cases hdesc : i.runnerDescription with
  | none =>
    rw [Bool.not_eq_true', Bool.or_eq_false_iff]
    constructor
    · rintro ⟨hcode, _⟩
      rintro (hmem | ⟨d2, hd2, _, _⟩)
      · have hc := (hcontains _ _).mpr hmem
        rw [hcode] at hc
        exact Bool.false_ne_true hc
      · exact Option.noConfusion hd2
    · intro hno
      refine ⟨?_, rfl⟩
      cases hc : ign.codes.contains i.code
      · rfl
      · exact absurd (Or.inl ((hcontains _ _).mp hc)) hno
  | some d =>
    rw [Bool.not_eq_true', Bool.or_eq_false_iff]
    constructor
    · rintro ⟨hcode, hdd⟩
      rintro (hmem | ⟨d2, hd2, hne2, hmem2⟩)
      · have hc := (hcontains _ _).mpr hmem
        rw [hcode] at hc
        exact Bool.false_ne_true hc
      · injection hd2 with hd2
        subst hd2
        rw [Bool.and_eq_false_iff] at hdd
        rcases hdd with hdd | hdd
        · rw [Bool.not_eq_false', List.isEmpty_iff] at hdd
          exact hne2 hdd
        · have hc := (hcontains _ _).mpr hmem2
          rw [hdd] at hc
          exact Bool.false_ne_true hc
    · intro hno
      push_neg at hno
      obtain ⟨hcode, hrest⟩ := hno
      constructor
      · cases hc : ign.codes.contains i.code
        · rfl
        · exact absurd ((hcontains _ _).mp hc) hcode
      · rw [Bool.and_eq_false_iff]
        by_cases hd0 : d = []
        · left
          rw [Bool.not_eq_false', List.isEmpty_iff]
          exact hd0
        · right
          cases hc : ign.descriptions.contains d
          · rfl
          · exact absurd ((hcontains _ _).mp hc) (hrest d rfl hd0)

/-- C8 (amended): the accessibility-lint entry point exits with status 1
exactly when some checked component has an issue that is not ignored, where
an issue is ignored when its code is in ignore.codes or its runner
description is non-empty and in ignore.descriptions. -/
theorem lint_exit_iff_nonignored (ign : IgnoreConfig) (results : List A11yReport) :
    lintExitsOne ign results = true ↔
      ∃ r ∈ results, ∃ i ∈ r.issues, ¬ amendedIgnored ign i := by
  unfold lintExitsOne
  constructor
  · intro h
    rw [Bool.not_eq_true'] at h
    have hne : ((results.map (logReportHasIssues ign)).filter (fun b => !(b == false))) ≠ [] := by
      intro h0
      rw [h0] at h
      simp at h
    rcases List.exists_mem_of_ne_nil _ hne with ⟨b, hb⟩
    rw [List.mem_filter] at hb
    obtain ⟨hbmem, hbval⟩ := hb
    rcases List.mem_map.mp hbmem with ⟨r, hr, hrb⟩
    have hbt : b = true := by
      cases b
      · simp at hbval
      · rfl
    have hlog : logReportHasIssues ign r = true := by rw [hrb, hbt]
    unfold logReportHasIssues at hlog
    rw [decide_eq_true_eq] at hlog
    rw [List.length_pos] at hlog
    rcases List.exists_mem_of_ne_nil _ hlog with ⟨i, hi⟩
    rw [List.mem_filter] at hi
    exact ⟨r, hr, i, hi.1, (issueIsValid_iff_not_ignored ign i).mp hi.2⟩
  · rintro ⟨r, hr, i, hi, hni⟩
    have hvalid : issueIsValid ign i = true := (issueIsValid_iff_not_ignored ign i).mpr hni
    have hlog : logReportHasIssues ign r = true := by
      unfold logReportHasIssues
      rw [decide_eq_true_eq, List.length_pos]
      intro h0
      have : i ∈ r.issues.filter (issueIsValid ign) := List.mem_filter.mpr ⟨hi, hvalid⟩
      rw [h0] at this
      simp at this
    have hmem : (true : Bool) ∈ (results.map (logReportHasIssues ign)).filter (fun b => !(b == false)) := by
      rw [List.mem_filter]
      refine ⟨?_, by decide⟩
      rw [← hlog]
      exact List.mem_map_of_mem _ hr
    rw [Bool.not_eq_true']
    cases hE : ((results.map (logReportHasIssues ign)).filter (fun b => !(b == false))).isEmpty
    · rfl
    · rw [List.isEmpty_iff] at hE
      rw [hE] at hmem
      simp at hmem

/-- Witness for the amended C8: the empty-description configuration makes
the script exit 1, and indeed its issue is not ignored in the amended
sense. -/
theorem lint_exit_iff_nonignored_witness :
    lintExitsOne ignEmptyDesc [reportEmptyDesc] = true :=
  (lint_exit_iff_nonignored ignEmptyDesc [reportEmptyDesc]).mpr
    ⟨reportEmptyDesc, by decide, issueEmptyDesc, by decide, by
      rintro (hc | ⟨d, hd, hne, _⟩)
      · exact List.not_mem_nil _ hc
      · exact hne (Option.some.inj hd).symm⟩

/-- Last path segment, modelling path.basename on a POSIX path. -/
def basenamePosix (p : JStr) : JStr :=
  match lastIdxOf '/' p with
  | none => p
  | some i => p.drop (i + 1)

/-- Embedding of `replace(/\.svg$/i, '')`. -/
def stripSvgExtCI (s : JStr) : JStr :=
  if ciEndsWith s (jstr ".svg") then s.take (s.length - 4) else s

/-- Embedding of `String.prototype.replace` with a plain string pattern:
replace the first occurrence of the marker. -/
def replaceFirstSub (marker repl s : JStr) : JStr :=
  match firstIdxOfSub marker s with
  | none => s
  | some i => s.take i ++ repl ++ s.drop (i + marker.length)

/-- Characters accepted unchanged by the symbol id sanitizer: the class
`[a-z0-9_-]` of plugins.js line 389. -/
def idSafeChar (c : Char) : Bool :=
  (('a' ≤ c) && (c ≤ 'z')) || (('0' ≤ c) && (c ≤ '9')) || (c == '_') || (c == '-')

/-- Embedding of `replace(/[^a-z0-9_-]+/g, '-')`: every maximal run of
unsafe characters collapses to one dash. -/
def collapseUnsafe : JStr → JStr
  | [] => []
  | c :: rest =>
    if idSafeChar c then c :: collapseUnsafe rest
    else '-' :: collapseUnsafe (rest.dropWhile (fun x => !idSafeChar x))
termination_by s => s.length
decreasing_by
  · simp only [List.length_cons]
    omega
  · simp only [List.length_cons]
    have h := (List.dropWhile_sublist (l := rest) (fun x => !idSafeChar x)).length_le
    omega

/-- Embedding of `replace(/^-+|-+$/g, '')`: strip leading and trailing dash
runs. -/
def trimDashes (s : JStr) : JStr :=
  ((s.dropWhile (fun c => c == '-')).reverse.dropWhile (fun c => c == '-')).reverse

/-- Sanitization pipeline of idFor (plugins.js lines 386-390): lower-case,
collapse unsafe runs to dashes, trim dashes. -/
def sanitizeId (base : JStr) : JStr := trimDashes (collapseUnsafe (jsToLower base))

/-- Embedding of `symbolId.replace('[name]', stem)` (plugins.js line 386). -/
def symbolIdBase (symbolId stem : JStr) : JStr :=
  replaceFirstSub (jstr "[name]") stem symbolId

/-- Decimal digit character. -/
def digitChar (d : Nat) : Char :=
  match d with
  | 0 => '0' | 1 => '1' | 2 => '2' | 3 => '3' | 4 => '4'
  | 5 => '5' | 6 => '6' | 7 => '7' | 8 => '8' | _ => '9'

/-- Decimal rendering of a natural number, modelling the JavaScript
template-literal rendering of the loop counter in plugins.js line 397. -/
def natDecimal (n : Nat) : JStr :=
  if _h : n < 10 then [digitChar n]
  else natDecimal (n / 10) ++ [digitChar (n % 10)]
termination_by n
decreasing_by exact Nat.div_lt_self (by omega) (by omega)

/-- Inverse reading of a decimal string, used to prove the rendering
injective. -/
def decDigit (c : Char) : Nat := c.toNat - 48

/-- Decimal decoding. -/
def decDecode (s : JStr) : Nat := s.foldl (fun a c => a * 10 + decDigit c) 0

theorem decDigit_digitChar (d : Nat) (hd : d < 10) : decDigit (digitChar d) = d := by
  interval_cases d <;> rfl

theorem decDecode_natDecimal (n : Nat) : decDecode (natDecimal n) = n := by
  induction n using Nat.strong_induction_on with
  | _ n ih =>
    by_cases h : n < 10
    · rw [natDecimal, dif_pos h]
      show 0 * 10 + decDigit (digitChar n) = n
      rw [decDigit_digitChar n h]
      omega
    · rw [natDecimal, dif_neg h]
      have hstep : decDecode (natDecimal (n / 10) ++ [digitChar (n % 10)]) =
          decDecode (natDecimal (n / 10)) * 10 + decDigit (digitChar (n % 10)) := by
        unfold decDecode
        rw [List.foldl_append]
        rfl
      rw [hstep, ih (n / 10) (Nat.div_lt_self (by omega) (by omega)),
        decDigit_digitChar _ (Nat.mod_lt _ (by omega))]
      omega

theorem natDecimal_inj {a b : Nat} (h : natDecimal a = natDecimal b) : a = b := by
  have h2 := congrArg decDecode h
  rwa [decDecode_natDecimal, decDecode_natDecimal] at h2

/-- The suffixed candidate identifier of plugins.js line 397: the template
literal appending a dash and the counter to the base id. -/
def renderCandidate (id : JStr) (i : Nat) : JStr := id ++ '-' :: natDecimal i

theorem renderCandidate_inj (id : JStr) {i j : Nat}
    (h : renderCandidate id i = renderCandidate id j) : i = j := by
  unfold renderCandidate at h
  have h2 := List.append_cancel_left h
  exact natDecimal_inj (List.cons.inj h2).2

/-- The while loop of idFor (plugins.js line 397): starting at candidate
index i, advance while the candidate is taken.  The fuel bounds the number
of iterations; usedIds.length + 1 iterations always suffice because the
candidates are pairwise distinct. -/
def firstFreshFrom (used : List JStr) (id : JStr) : Nat → Nat → Nat
  | i, fuel =>
    match fuel with
    | 0 => i
    | f + 1 =>
      if used.contains (renderCandidate id i) then firstFreshFrom used id (i + 1) f else i

/-- Embedding of idFor from plugins.js (lines 384-401), after the base id
has been sanitized: return the base when unused, else the first unused
dash-suffixed candidate starting at 2. -/
def idFor (used : List JStr) (base : JStr) : JStr :=
  if used.contains base then
    renderCandidate base (firstFreshFrom used base 2 (used.length + 1))
  else base

theorem firstFreshFrom_red (used : List JStr) (id : JStr) (i f : Nat) :
    firstFreshFrom used id i (f + 1) =
      if used.contains (renderCandidate id i) then firstFreshFrom used id (i + 1) f else i := rfl

theorem firstFreshFrom_spec (used : List JStr) (id : JStr) :
    ∀ (fuel i : Nat), (∃ k, k < fuel ∧ used.contains (renderCandidate id (i + k)) = false) →
      used.contains (renderCandidate id (firstFreshFrom used id i fuel)) = false := by
  intro fuel
  induction fuel with
  | zero =>
    rintro i ⟨k, hk, _⟩
    omega
  | succ f ih =>
    rintro i ⟨k, hk, hfresh⟩
    rw [firstFreshFrom_red]
    by_cases hc : used.contains (renderCandidate id i) = true
    · rw [if_pos hc]
      apply ih
      rcases k with _ | k2
      · rw [Nat.add_zero] at hfresh
        rw [hfresh] at hc
        exact absurd hc Bool.false_ne_true
      · refine ⟨k2, by omega, ?_⟩
        rw [show i + 1 + k2 = i + (k2 + 1) by omega]
        exact hfresh
    · rw [if_neg hc]
      cases h2 : used.contains (renderCandidate id i)
      · rfl
      · exact absurd h2 hc

theorem exists_fresh_window (used : List JStr) (id : JStr) (i : Nat) :
    ∃ k, k < used.length + 1 ∧ used.contains (renderCandidate id (i + k)) = false := by
  by_contra hno
  push_neg at hno
  have hall : ∀ k, k < used.length + 1 → renderCandidate id (i + k) ∈ used := by
    intro k hk
    have hne := hno k hk
    have ht : used.contains (renderCandidate id (i + k)) = true := by
      cases hcc : used.contains (renderCandidate id (i + k))
      · exact absurd hcc hne
      · rfl
    exact List.elem_iff.mp ht
  have hnodup : ((List.range (used.length + 1)).map
      (fun k => renderCandidate id (i + k))).Nodup := by
    apply List.Nodup.map ?_ (List.nodup_range _)
    intro a b hab
    have h2 := renderCandidate_inj id hab
    omega
  have hsub : ((List.range (used.length + 1)).map
      (fun k => renderCandidate id (i + k))) ⊆ used := by
    intro x hx
    rcases List.mem_map.mp hx with ⟨k, hk, hxk⟩
    rw [List.mem_range] at hk
    exact hxk ▸ hall k hk
  have hle := (hnodup.subperm hsub).length_le
  simp only [List.length_map, List.length_range] at hle
  omega

theorem idFor_fresh (used : List JStr) (base : JStr) :
    used.contains (idFor used base) = false := by
  unfold idFor
  by_cases hc : used.contains base = true
  · rw [if_pos hc]
    exact firstFreshFrom_spec used base (used.length + 1) 2 (exists_fresh_window used base 2)
  · rw [if_neg hc]
    cases h2 : used.contains base
    · rfl
    · exact absurd h2 hc

theorem firstFreshFrom_ge (used : List JStr) (id : JStr) :
    ∀ (fuel i : Nat), i ≤ firstFreshFrom used id i fuel := by
  intro fuel
  induction fuel with
  | zero => intro i; exact Nat.le_refl i
  | succ f ih =>
    intro i
    rw [firstFreshFrom_red]
    by_cases hc : used.contains (renderCandidate id i) = true
    · rw [if_pos hc]
      exact Nat.le_trans (by omega) (ih (i + 1))
    · rw [if_neg hc]

theorem idFor_shape (used : List JStr) (base : JStr) :
    idFor used base = base ∨ ∃ i, 2 ≤ i ∧ idFor used base = renderCandidate base i := by
  unfold idFor
  by_cases hc : used.contains base = true
  · rw [if_pos hc]
    exact Or.inr ⟨firstFreshFrom used base 2 (used.length + 1),
      firstFreshFrom_ge used base (used.length + 1) 2, rfl⟩
  · rw [if_neg hc]
    exact Or.inl rfl

/-- One emitted sprite symbol: its identifier and the icon file it was
generated from (the symbol markup around the copied icon content is not
modelled; it does not affect identifiers or the per-file count). -/
structure SpriteSymbol where
  id : JStr
  sourcePath : JStr

/-- One iteration of the toSymbol mapping of svgSpriteFilePlugin
(plugins.js lines 408-429): an unreadable file yields the empty string and
is filtered out without consuming an identifier; a readable file receives
the next unique identifier from idFor, which is then recorded in usedIds. -/
def spriteStep (symbolId : JStr) (acc : List SpriteSymbol × List JStr)
    (f : JStr × Option JStr) : List SpriteSymbol × List JStr :=
  match f.2 with
  | none => acc
  | some _ =>
    let base := sanitizeId (symbolIdBase symbolId (stripSvgExtCI (basenamePosix f.1)))
    let i := idFor acc.2 base
    (acc.1 ++ [⟨i, f.1⟩], i :: acc.2)

/-- Embedding of the symbol list built by generateBundle of
svgSpriteFilePlugin (plugins.js lines 370-442).  The input is the sorted
glob result paired with each file's readable content (none when
readFileSync throws). -/
def generateBundleSymbols (symbolId : JStr) (files : List (JStr × Option JStr)) :
    List SpriteSymbol :=
  (files.foldl (spriteStep symbolId) ([], [])).1

theorem contains_false_iff (l : List JStr) (a : JStr) : l.contains a = false ↔ a ∉ l := by
  constructor
  · intro h hmem
    have h2 : l.contains a = true := List.elem_iff.mpr hmem
    rw [h] at h2
    exact Bool.false_ne_true h2
  · intro h
    cases hc : l.contains a
    · rfl
    · exact absurd (List.elem_iff.mp hc) h

theorem spriteFold_length (sid : JStr) :
    ∀ (files : List (JStr × Option JStr)) (acc : List SpriteSymbol × List JStr),
      ((files.foldl (spriteStep sid) acc).1).length =
        acc.1.length + (files.filter (fun f => f.2.isSome)).length := by
  intro files
  induction files with
  | nil => intro acc; simp
  | cons f t ih =>
    intro acc
    rcases f with ⟨p, c⟩
    cases c with
    | none =>
      simp only [List.foldl_cons, List.filter_cons, Option.isSome_none,
        Bool.false_eq_true, if_false]
      exact ih acc
    | some content =>
      simp only [List.foldl_cons, List.filter_cons, Option.isSome_some, if_true]
      rw [show (t.foldl (spriteStep sid) (spriteStep sid acc (p, some content))).1 =
          (t.foldl (spriteStep sid)
            (acc.1 ++ [⟨idFor acc.2 (sanitizeId (symbolIdBase sid (stripSvgExtCI (basenamePosix p)))), p⟩],
             idFor acc.2 (sanitizeId (symbolIdBase sid (stripSvgExtCI (basenamePosix p)))) :: acc.2)).1
        from rfl]
      rw [ih]
      simp only [List.length_append, List.length_cons, List.length_nil]
      omega

theorem spriteFold_inv (sid : JStr) :
    ∀ (files : List (JStr × Option JStr)) (acc : List SpriteSymbol × List JStr),
      (∀ s ∈ acc.1, s.id ∈ acc.2) → ((acc.1.map SpriteSymbol.id).Nodup) →
      (∀ s ∈ (files.foldl (spriteStep sid) acc).1,
        s.id ∈ (files.foldl (spriteStep sid) acc).2) ∧
      (((files.foldl (spriteStep sid) acc).1.map SpriteSymbol.id).Nodup) := by
  intro files
  induction files with
  | nil => intro acc h1 h2; exact ⟨h1, h2⟩
  | cons f t ih =>
    intro acc h1 h2
    rcases f with ⟨p, c⟩
    cases c with
    | none =>
      simp only [List.foldl_cons]
      exact ih acc h1 h2
    | some content =>
      simp only [List.foldl_cons]
      have hfresh : (idFor acc.2 (sanitizeId (symbolIdBase sid (stripSvgExtCI (basenamePosix p))))) ∉ acc.2 :=
        (contains_false_iff _ _).mp (idFor_fresh acc.2 _)
      rw [show spriteStep sid acc (p, some content) =
          (acc.1 ++ [⟨idFor acc.2 (sanitizeId (symbolIdBase sid (stripSvgExtCI (basenamePosix p)))), p⟩],
           idFor acc.2 (sanitizeId (symbolIdBase sid (stripSvgExtCI (basenamePosix p)))) :: acc.2)
        from rfl]
      apply ih
      · intro s hs
        rcases List.mem_append.mp hs with hs | hs
        · exact List.mem_cons_of_mem _ (h1 s hs)
        · rw [List.mem_singleton] at hs
          subst hs
          exact List.mem_cons_self _ _
      · rw [List.map_append, List.nodup_append]
        refine ⟨h2, by simp, ?_⟩
        intro a ha hb
        simp only [List.map_cons, List.map_nil, List.mem_singleton] at hb
        subst hb
        rcases List.mem_map.mp ha with ⟨s, hsmem, hsid⟩
        exact hfresh (hsid ▸ h1 s hsmem)

theorem spriteFold_shape (sid : JStr) :
    ∀ (files : List (JStr × Option JStr)) (acc : List SpriteSymbol × List JStr),
      ∀ s ∈ (files.foldl (spriteStep sid) acc).1,
        s ∈ acc.1 ∨
          ((∃ f ∈ files, f.2.isSome = true ∧ s.sourcePath = f.1) ∧
            (s.id = sanitizeId (symbolIdBase sid (stripSvgExtCI (basenamePosix s.sourcePath))) ∨
             ∃ i, 2 ≤ i ∧ s.id =
               renderCandidate (sanitizeId (symbolIdBase sid (stripSvgExtCI (basenamePosix s.sourcePath)))) i)) := by
  intro files
  induction files with
  | nil => intro acc s hs; exact Or.inl hs
  | cons f t ih =>
    intro acc s hs
    rcases f with ⟨p, c⟩
    cases c with
    | none =>
      simp only [List.foldl_cons] at hs
      rcases ih _ s hs with h | ⟨⟨f2, hf2, hsome, hsp⟩, hshape⟩
      · exact Or.inl h
      · exact Or.inr ⟨⟨f2, List.mem_cons_of_mem _ hf2, hsome, hsp⟩, hshape⟩
    | some content =>
      simp only [List.foldl_cons] at hs
      rcases ih _ s hs with h | ⟨⟨f2, hf2, hsome, hsp⟩, hshape⟩
      · rw [show spriteStep sid acc (p, some content) =
            (acc.1 ++ [⟨idFor acc.2 (sanitizeId (symbolIdBase sid (stripSvgExtCI (basenamePosix p)))), p⟩],
             idFor acc.2 (sanitizeId (symbolIdBase sid (stripSvgExtCI (basenamePosix p)))) :: acc.2)
          from rfl] at h
        rcases List.mem_append.mp h with h | h
        · exact Or.inl h
        · rw [List.mem_singleton] at h
          subst h
          refine Or.inr ⟨⟨(p, some content), List.mem_cons_self _ _, rfl, rfl⟩, ?_⟩
          exact idFor_shape acc.2 _
      · exact Or.inr ⟨⟨f2, List.mem_cons_of_mem _ hf2, hsome, hsp⟩, hshape⟩

/-- C6: the spritemap builder emits one symbol per readable icon file, each
symbol identifier derives from the file's sanitized base name (possibly
with a numeric suffix of at least 2 for later duplicates), and the emitted
identifiers are pairwise distinct. -/
theorem sprite_symbols_one_per_file_unique_ids (sid : JStr)
    (files : List (JStr × Option JStr)) :
    (generateBundleSymbols sid files).length =
      (files.filter (fun f => f.2.isSome)).length ∧
    ((generateBundleSymbols sid files).map SpriteSymbol.id).Nodup ∧
    ∀ s ∈ generateBundleSymbols sid files,
      (∃ f ∈ files, f.2.isSome = true ∧ s.sourcePath = f.1) ∧
      (s.id = sanitizeId (symbolIdBase sid (stripSvgExtCI (basenamePosix s.sourcePath))) ∨
       ∃ i, 2 ≤ i ∧ s.id =
         renderCandidate (sanitizeId (symbolIdBase sid (stripSvgExtCI (basenamePosix s.sourcePath)))) i) := by
  refine ⟨?_, ?_, ?_⟩
  · have h := spriteFold_length sid files ([], [])
    simpa [generateBundleSymbols] using h
  · exact (spriteFold_inv sid files ([], []) (by simp) (by simp)).2
  · intro s hs
    rcases spriteFold_shape sid files ([], []) s hs with h | h
    · simp at h
    · exact h

/-- Default symbol id template of makePlugins. -/
def sidIcon : JStr := jstr "icon-[name]"

/-- Two readable icons with colliding base names in different folders. -/
def exIcons : List (JStr × Option JStr) :=
  [(jstr "/p/assets/icons/arrow.svg", some (jstr "<svg></svg>")),
   (jstr "/p/assets/social/arrow.svg", some (jstr "<svg></svg>"))]

/-- Witness for C6 at two same-named icons. -/
theorem sprite_symbols_one_per_file_unique_ids_witness :
    ((generateBundleSymbols sidIcon exIcons).map SpriteSymbol.id).Nodup ∧
    (generateBundleSymbols sidIcon exIcons).length = 2 :=
  ⟨(sprite_symbols_one_per_file_unique_ids sidIcon exIcons).2.1,
   (sprite_symbols_one_per_file_unique_ids sidIcon exIcons).1.trans (by decide)⟩

/-- Absolute normalized path, as a list of segments.  The sources only ever
manipulate such paths via resolve, join and dirname, whose segments never
contain a separator, so segment-list equality coincides with the string
equality used by the JavaScript code. -/
abbrev FsPath := List JStr

/-- Rendering of a path to the string form compared by
`cursor.startsWith(stopAbs)` in pruneEmptyDirsUpTo (plugins.js line 109). -/
def renderPath (p : FsPath) : JStr := (p.map (fun seg => '/' :: seg)).flatten

/-- Directory-tree state: the existing directories and files. -/
structure FsTree where
  dirs : List FsPath
  files : List FsPath
deriving DecidableEq

/-- Whether some existing entry has d as its direct parent. -/
def hasChildEntry (fs : FsTree) (d : FsPath) : Bool :=
  (fs.dirs ++ fs.files).any (fun q => !(q == ([] : FsPath)) && (q.dropLast == d))

/-- Embedding of the isEmpty helper of pruneEmptyDirsUpTo (plugins.js lines
101-107): readdirSync(dir).length === 0, and false when the directory does
not exist (the catch branch). -/
def isEmptyDirB (fs : FsTree) (d : FsPath) : Bool :=
  fs.dirs.contains d && !(hasChildEntry fs d)

/-- Effect of rmdirSync on the tree state. -/
def rmdirFs (fs : FsTree) (d : FsPath) : FsTree :=
  ⟨fs.dirs.filter (fun x => !(x == d)), fs.files⟩

/-- Model of path.dirname on segment paths. -/
def dirnamePath (p : FsPath) : FsPath := p.dropLast

/-- Embedding of the while loop of pruneEmptyDirsUpTo (plugins.js lines
109-122), instrumented to return the removal log: each removed directory
paired with the tree state just before its removal.  The fuel bounds the
loop, which strictly shortens the cursor each iteration, so the caller's
fuel of startDir.length + 1 always suffices; an rmdirSync failure would
only stop the loop earlier, removing a prefix of this log, so this is the
maximal-removal run. -/
def pruneLoopF : Nat → FsTree → FsPath → FsPath → FsTree × List (FsTree × FsPath)
  | 0, fs, _, _ => (fs, [])
  | fuel + 1, fs, cursor, stop =>
    if (renderPath stop).isPrefixOf (renderPath cursor) then
      if isEmptyDirB fs cursor then
        let fs1 := rmdirFs fs cursor
        let parent := dirnamePath cursor
        if parent = cursor ∨ parent = stop then (fs1, [(fs, cursor)])
        else
          let r := pruneLoopF fuel fs1 parent stop
          (r.1, (fs, cursor) :: r.2)
      else (fs, [])
    else (fs, [])

/-- Embedding of pruneEmptyDirsUpTo (plugins.js lines 92-123). -/
def pruneEmptyDirsUpTo (fs : FsTree) (startDir stopAtDir : FsPath) :
    FsTree × List (FsTree × FsPath) :=
  pruneLoopF (startDir.length + 1) fs startDir stopAtDir

/-- Effect of `mkdirSync(p, recursive)`: create every missing ancestor. -/
def mkdirsFor (fs : FsTree) (p : FsPath) : FsTree :=
  { fs with dirs := fs.dirs ++
      (((List.range p.length).map (fun k => p.take (k + 1))).filter
        (fun d => !(fs.dirs.contains d))) }

/-- Effect of copyFileSync at the destination. -/
def addFileFs (fs : FsTree) (p : FsPath) : FsTree :=
  { fs with files := if fs.files.contains p then fs.files else fs.files ++ [p] }

/-- Effect of unlinkSync. -/
def unlinkFs (fs : FsTree) (p : FsPath) : FsTree :=
  { fs with files := fs.files.filter (fun x => !(x == p)) }

/-- Embedding of one iteration of the mirror loop of mirrorComponentsToRoot
(plugins.js lines 486-507): create the destination directories, copy the
file, delete the original, prune upward from its directory with the
dist/components boundary. -/
def mirrorStep (outDir distComponents projectDir : FsPath)
    (acc : FsTree × List (FsTree × FsPath)) (f : FsPath) :
    FsTree × List (FsTree × FsPath) :=
  let dest := projectDir ++ f.drop outDir.length
  let fs1 := mkdirsFor acc.1 (dirnamePath dest)
  let fs2 := addFileFs fs1 dest
  let fs3 := unlinkFs fs2 f
  let r := pruneEmptyDirsUpTo fs3 (dirnamePath f) distComponents
  (r.1, acc.2 ++ r.2)

/-- Embedding of the closeBundle flow of mirrorComponentsToRoot (plugins.js
lines 480-511): nothing happens when disabled or when dist/components does
not exist; otherwise every walked file is mirrored and pruned, and finally
dist/components itself is pruned with the outDir boundary.  fileOrder is
the walkFiles enumeration (all files strictly under dist/components, in
stack order). -/
def mirrorComponentsToRoot (enabled : Bool) (outDir projectDir : FsPath)
    (fs : FsTree) (fileOrder : List FsPath) : FsTree × List (FsTree × FsPath) :=
  if !enabled then (fs, [])
  else if !(fs.dirs.contains (outDir ++ [jstr "components"])) then (fs, [])
  else
    ((pruneEmptyDirsUpTo
        (fileOrder.foldl (mirrorStep outDir (outDir ++ [jstr "components"]) projectDir) (fs, [])).1
        (outDir ++ [jstr "components"]) outDir).1,
     (fileOrder.foldl (mirrorStep outDir (outDir ++ [jstr "components"]) projectDir) (fs, [])).2 ++
       (pruneEmptyDirsUpTo
         (fileOrder.foldl (mirrorStep outDir (outDir ++ [jstr "components"]) projectDir) (fs, [])).1
         (outDir ++ [jstr "components"]) outDir).2)

theorem renderPath_append (a b : FsPath) :
    renderPath (a ++ b) = renderPath a ++ renderPath b := by
  unfold renderPath
  rw [List.map_append, List.flatten_append]

theorem renderPath_ne_nil (t : FsPath) (h : t ≠ []) : renderPath t ≠ [] := by
  cases t with
  | nil => exact absurd rfl h
  | cons s t2 =>
    show ('/' :: s) ++ (t2.map (fun seg => '/' :: seg)).flatten ≠ []
    exact List.cons_ne_nil _ _

theorem not_renderPrefix_of_proper (cursor stop : FsPath) (t : FsPath) (ht : t ≠ [])
    (hstop : stop = cursor ++ t) :
    (renderPath stop).isPrefixOf (renderPath cursor) = false := by
  cases hc : (renderPath stop).isPrefixOf (renderPath cursor)
  · rfl
  · exfalso
    have hpre := List.isPrefixOf_iff_prefix.mp hc
    have hlen := hpre.length_le
    rw [hstop, renderPath_append, List.length_append] at hlen
    have hpos : 0 < (renderPath t).length :=
      List.length_pos.mpr (renderPath_ne_nil t ht)
    omega

theorem prefix_dropLast_cases {stop cursor : FsPath} (h : stop <+: cursor) :
    stop <+: cursor.dropLast ∨ cursor.dropLast <+: stop := by
  by_cases hlen : cursor.length ≤ stop.length
  · have heq : stop = cursor := h.eq_of_length (Nat.le_antisymm h.length_le hlen)
    right
    subst heq
    exact List.dropLast_prefix stop
  · left
    push_neg at hlen
    have h2 : List.take stop.length cursor.dropLast = List.take stop.length cursor := by
      rw [List.dropLast_eq_take, List.take_take, Nat.min_eq_left (by omega)]
    rw [List.prefix_iff_eq_take, h2, ← List.prefix_iff_eq_take]
    exact h

theorem prefix_dropLast_of_proper {a f : FsPath} (h : a <+: f) (hne : f ≠ a) :
    a <+: f.dropLast := by
  rcases h with ⟨t, ht⟩
  cases t with
  | nil =>
    rw [List.append_nil] at ht
    exact absurd ht.symm hne
  | cons x t2 =>
    rw [← ht, List.dropLast_append_of_ne_nil a (List.cons_ne_nil x t2)]
    exact ⟨(x :: t2).dropLast, rfl⟩

theorem pruneLoopF_red (f : Nat) (fs : FsTree) (cursor stop : FsPath) :
    pruneLoopF (f + 1) fs cursor stop =
      if (renderPath stop).isPrefixOf (renderPath cursor) then
        if isEmptyDirB fs cursor then
          if dirnamePath cursor = cursor ∨ dirnamePath cursor = stop then
            (rmdirFs fs cursor, [(fs, cursor)])
          else
            ((pruneLoopF f (rmdirFs fs cursor) (dirnamePath cursor) stop).1,
             (fs, cursor) :: (pruneLoopF f (rmdirFs fs cursor) (dirnamePath cursor) stop).2)
        else (fs, [])
      else (fs, []) := rfl

theorem pruneLoopF_spec :
    ∀ (fuel : Nat) (fs : FsTree) (cursor stop : FsPath),
      (stop <+: cursor ∨ cursor <+: stop) →
      ∀ s d, (s, d) ∈ (pruneLoopF fuel fs cursor stop).2 →
        isEmptyDirB s d = true ∧ stop <+: d ∧ d <+: cursor ∧ (cursor ≠ stop → d ≠ stop) := by
  intro fuel
  induction fuel with
  | zero =>
    intro fs cursor stop _ s d hd
    exact absurd hd (List.not_mem_nil _)
  | succ f ih =>
    intro fs cursor stop hc s d hd
    rw [pruneLoopF_red] at hd
    by_cases h1 : (renderPath stop).isPrefixOf (renderPath cursor) = true
    · rw [if_pos h1] at hd
      have hsc : stop <+: cursor := by
        rcases hc with hc | hc
        · exact hc
        · rcases hc with ⟨t, ht⟩
          by_cases ht0 : t = []
          · subst ht0
            rw [List.append_nil] at ht
            rw [← ht]
          · exfalso
            have hfalse := not_renderPrefix_of_proper cursor stop t ht0 ht.symm
            simp [hfalse] at h1
      by_cases h2 : isEmptyDirB fs cursor = true
      · rw [if_pos h2] at hd
        by_cases h3 : dirnamePath cursor = cursor ∨ dirnamePath cursor = stop
        · rw [if_pos h3] at hd
          rw [List.mem_singleton, Prod.mk.injEq] at hd
          obtain ⟨hs, hdd⟩ := hd
          subst hs
          subst hdd
          exact ⟨h2, hsc, List.prefix_refl _, fun hne => hne⟩
        · rw [if_neg h3] at hd
          push_neg at h3
          obtain ⟨_, hps⟩ := h3
          rcases List.mem_cons.mp hd with hd | hd
          · rw [Prod.mk.injEq] at hd
            obtain ⟨hs, hdd⟩ := hd
            subst hs
            subst hdd
            exact ⟨h2, hsc, List.prefix_refl _, fun hne => hne⟩
          · have hc2 : stop <+: dirnamePath cursor ∨ dirnamePath cursor <+: stop :=
              prefix_dropLast_cases hsc
            obtain ⟨he, hsd, hdp, hds⟩ := ih (rmdirFs fs cursor) (dirnamePath cursor) stop hc2 s d hd
            exact ⟨he, hsd, hdp.trans (List.dropLast_prefix cursor), fun _ => hds hps⟩
      · rw [if_neg h2] at hd
        exact absurd hd (List.not_mem_nil _)
    · rw [if_neg h1] at hd
      exact absurd hd (List.not_mem_nil _)

theorem mirrorFold_spec (outDir projectDir distC : FsPath) :
    ∀ (fileOrder : List FsPath) (acc : FsTree × List (FsTree × FsPath)),
      (∀ f ∈ fileOrder, distC <+: f ∧ f ≠ distC) →
      (∀ s d, (s, d) ∈ acc.2 → isEmptyDirB s d = true ∧ distC <+: d) →
      ∀ s d, (s, d) ∈ (fileOrder.foldl (mirrorStep outDir distC projectDir) acc).2 →
        isEmptyDirB s d = true ∧ distC <+: d := by
  intro fileOrder
  induction fileOrder with
  | nil => intro acc _ hacc s d hd; exact hacc s d hd
  | cons f t ih =>
    intro acc hfiles hacc s d hd
    simp only [List.foldl_cons] at hd
    refine ih _ (fun g hg => hfiles g (List.mem_cons_of_mem _ hg)) ?_ s d hd
    intro s2 d2 hd2
    rw [show (mirrorStep outDir distC projectDir acc f).2 =
        acc.2 ++ (pruneEmptyDirsUpTo
          (unlinkFs (addFileFs (mkdirsFor acc.1 (dirnamePath (projectDir ++ f.drop outDir.length)))
            (projectDir ++ f.drop outDir.length)) f)
          (dirnamePath f) distC).2 from rfl] at hd2
    rcases List.mem_append.mp hd2 with hd2 | hd2
    · exact hacc s2 d2 hd2
    · obtain ⟨hf1, hf2⟩ := hfiles f (List.mem_cons_self _ _)
      have hc : distC <+: dirnamePath f ∨ dirnamePath f <+: distC :=
        Or.inl (prefix_dropLast_of_proper hf1 hf2)
      obtain ⟨he, hsd, _, _⟩ := pruneLoopF_spec ((dirnamePath f).length + 1) _
        (dirnamePath f) distC hc s2 d2 hd2
      exact ⟨he, hsd⟩

/-- C7: every directory removed by the prune phase of the mirror step was
empty at its removal time and lies inside the dist/components subtree
(dist/components itself included), hence strictly below the non-inclusive
build-output-root boundary: no directory outside that subtree, and in
particular not the output root, and no non-empty directory is ever
deleted. -/
theorem mirror_prune_safety (enabled : Bool) (outDir projectDir : FsPath)
    (fs : FsTree) (fileOrder : List FsPath)
    (hfiles : ∀ f ∈ fileOrder,
      (outDir ++ [jstr "components"]) <+: f ∧ f ≠ outDir ++ [jstr "components"]) :
    ∀ s d, (s, d) ∈ (mirrorComponentsToRoot enabled outDir projectDir fs fileOrder).2 →
      isEmptyDirB s d = true ∧ (outDir ++ [jstr "components"]) <+: d ∧ d ≠ outDir := by
  intro s d hd
  unfold mirrorComponentsToRoot at hd
  by_cases hen : (!enabled) = true
  · rw [if_pos hen] at hd
    exact absurd hd (List.not_mem_nil _)
  · rw [if_neg hen] at hd
    by_cases hex : (!(fs.dirs.contains (outDir ++ [jstr "components"]))) = true
    · rw [if_pos hex] at hd
      exact absurd hd (List.not_mem_nil _)
    · rw [if_neg hex] at hd
      have hdistne : outDir ++ [jstr "components"] ≠ outDir := by
        intro h0
        have := congrArg List.length h0
        simp at this
      rcases List.mem_append.mp hd with hd | hd
      · obtain ⟨he, hpre⟩ := mirrorFold_spec outDir projectDir (outDir ++ [jstr "components"])
          fileOrder (fs, []) hfiles (fun _ _ h0 => absurd h0 (List.not_mem_nil _)) s d hd
        refine ⟨he, hpre, ?_⟩
        intro h0
        subst h0
        have := hpre.length_le
        simp at this
      · have hc : outDir <+: (outDir ++ [jstr "components"]) ∨
            (outDir ++ [jstr "components"]) <+: outDir :=
          Or.inl ⟨[jstr "components"], rfl⟩
        obtain ⟨he, hsd, hdp, hds⟩ := pruneLoopF_spec ((outDir ++ [jstr "components"]).length + 1)
          _ (outDir ++ [jstr "components"]) outDir hc s d hd
        have hdne : d ≠ outDir := hds hdistne
        have hdeq : d = outDir ++ [jstr "components"] := by
          have hlen1 := hsd.length_le
          have hlen2 := hdp.length_le
          simp only [List.length_append, List.length_cons, List.length_nil] at hlen2
          by_cases hcase : d.length = outDir.length
          · exact absurd (hsd.eq_of_length hcase.symm).symm hdne
          · exact hdp.eq_of_length (by simp; omega)
        refine ⟨he, ?_, hdne⟩
        rw [hdeq]

/-- Concrete mirror example: outDir dist, project root theme. -/
def outDir0 : FsPath := [jstr "dist"]

/-- Project root of the concrete mirror example. -/
def projD0 : FsPath := [jstr "theme"]

/-- Tree before the concrete mirror run: one component file under
dist/components/card. -/
def fs0 : FsTree :=
  ⟨[[jstr "dist"], [jstr "dist", jstr "components"], [jstr "dist", jstr "components", jstr "card"]],
   [[jstr "dist", jstr "components", jstr "card", jstr "card.twig"]]⟩

/-- Walk order of the concrete mirror run. -/
def order0 : List FsPath := [[jstr "dist", jstr "components", jstr "card", jstr "card.twig"]]

/-- Tree state just before the first removal of the concrete run. -/
def fsAtFirstRemoval : FsTree :=
  ⟨[[jstr "dist"], [jstr "dist", jstr "components"], [jstr "dist", jstr "components", jstr "card"],
    [jstr "theme"], [jstr "theme", jstr "components"], [jstr "theme", jstr "components", jstr "card"]],
   [[jstr "theme", jstr "components", jstr "card", jstr "card.twig"]]⟩

/-- Witness for C7 at the concrete mirror run: the first pruned directory
was empty at removal time, lies inside dist/components, and is not the
output root. -/
theorem mirror_prune_safety_witness :
    isEmptyDirB fsAtFirstRemoval [jstr "dist", jstr "components", jstr "card"] = true ∧
    (outDir0 ++ [jstr "components"]) <+: [jstr "dist", jstr "components", jstr "card"] ∧
    [jstr "dist", jstr "components", jstr "card"] ≠ outDir0 :=
  mirror_prune_safety true outDir0 projD0 fs0 order0 (by decide)
    fsAtFirstRemoval [jstr "dist", jstr "components", jstr "card"] (by decide)
